import Mathlib

/-!
Verification of the tool-aggregation core of the staffer repository:
configuration model (mcp-aggregator/config.py), discovery engine
(mcp-aggregator/discovery.py), composer (mcp-aggregator/composer.py),
schema translator (mcp-aggregator/adk_translator.py and
staffer/mcp_schema_handler.py) and argument path resolver
(staffer/mcp_path_handler.py), shallowly embedded in Lean.

Python dicts are modelled as association lists preserving insertion order,
exceptions as Except values, the environment (os.getenv, os.path.exists,
time.time) as explicit parameters, and the external MCP transport as an
oracle mapping a server name to either a tool list or an error.
-/

namespace Staffer

/-! ## String helpers (Python str methods used by the source) -/

/-- One step of Python str containment: does the needle occur as a prefix? -/
def charsHasPre : List Char → List Char → Bool
  | [], _ => true
  | _ :: _, [] => false
  | a :: as, b :: bs => a = b && charsHasPre as bs

/-- Python `needle in hay` on character lists. -/
def charsContainsSub (needle : List Char) : List Char → Bool
  | [] => charsHasPre needle []
  | c :: rest => charsHasPre needle (c :: rest) || charsContainsSub needle rest

/-- Python `needle in hay` for strings. -/
def strContainsSub (needle hay : String) : Bool :=
  charsContainsSub needle.data hay.data

/-- Python `s.lower()` (ASCII fragment). -/
def pyLower (s : String) : String :=
  ⟨s.data.map Char.toLower⟩

/-- Characters removed by Python `str.strip()` (ASCII whitespace fragment). -/
def pyIsSpace (c : Char) : Bool :=
  c = ' ' || c = '\t' || c = '\n' || c = '\r'

/-- Python `s.strip()`. -/
def pyStrip (s : String) : String :=
  ⟨((s.data.dropWhile pyIsSpace).reverse.dropWhile pyIsSpace).reverse⟩

/-- Python `c` is a decimal digit (ASCII fragment of str.isdigit). -/
def pyIsDigitChar (c : Char) : Bool :=
  '0' ≤ c && c ≤ '9'

/-- Python `s.isdigit()`: non-empty and all digits. -/
def pyIsDigit (s : String) : Bool :=
  !s.data.isEmpty && s.data.all pyIsDigitChar

/-- Numeric value of a decimal digit list (Python `int(s)` on digit strings). -/
def digitsToNat : List Char → Nat → Nat
  | [], acc => acc
  | c :: rest, acc => digitsToNat rest (acc * 10 + (c.toNat - '0'.toNat))

/-- Python `int(s)` for all-digit strings. -/
def pyInt (s : String) : Int :=
  Int.ofNat (digitsToNat s.data 0)

/-! ## Schema trees (JSON-schema parameter trees received from providers) -/

/-- A JSON-schema node as a Python dict: optional `type`, `description`,
`properties`, `items` and `required` entries (absent key = `none`). -/
inductive JSchema where
  | mk (jtype : Option String) (jdescription : Option String)
       (jproperties : Option (List (String × JSchema)))
       (jitems : Option JSchema)
       (jrequired : Option (List String))

/-- `genai.protos.Type` tags used by adk_translator.py. -/
inductive GType where
  | STRING | NUMBER | BOOLEAN | OBJECT | ARRAY
  deriving DecidableEq, Repr

/-- `genai.protos.Schema` (the fields the translator populates). -/
inductive GenSchema where
  | mk (gtype : GType) (gdescription : String)
       (gproperties : List (String × GenSchema))
       (grequired : List String)
       (gitems : Option GenSchema)

def GenSchema.gtype : GenSchema → GType
  | .mk t _ _ _ _ => t

def GenSchema.gdescription : GenSchema → String
  | .mk _ d _ _ _ => d

def GenSchema.gproperties : GenSchema → List (String × GenSchema)
  | .mk _ _ ps _ _ => ps

def GenSchema.propNames : GenSchema → List String
  | .mk _ _ ps _ _ => ps.map Prod.fst

def GenSchema.grequired : GenSchema → List String
  | .mk _ _ _ r _ => r

def GenSchema.gitems : GenSchema → Option GenSchema
  | .mk _ _ _ _ i => i

/-- A string leaf `genai.protos.Schema(type=STRING, description=d)`. -/
def stringLeaf (d : String) : GenSchema :=
  .mk .STRING d [] [] none

mutual
/-- adk_translator._convert_schema_to_genai: recursive JSON-schema to GenAI
schema translation.  In the array branch the source recurses on the default
literal schema when `items` is absent; that call evaluates to the
plain string leaf, written directly here. -/
def convert_schema_to_genai : JSchema → GenSchema
  | .mk ty ds props items req =>
    let d := ds.getD ""
    match ty with
    | some "string" => .mk .STRING d [] [] none
    | some "number" => .mk .NUMBER d [] [] none
    | some "boolean" => .mk .BOOLEAN d [] [] none
    | some "object" =>
        let ps := match props with
          | some l => convert_properties l
          | none => []
        .mk .OBJECT d ps (req.getD []) none
    | some "array" =>
        let itemsSchema := match items with
          | some s => convert_schema_to_genai s
          | none => stringLeaf ""
        .mk .ARRAY d [] [] (some itemsSchema)
    | _ => .mk .STRING d [] [] none

/-- The property loop of _convert_schema_to_genai's object branch. -/
def convert_properties : List (String × JSchema) → List (String × GenSchema)
  | [] => []
  | (n, s) :: rest => (n, convert_schema_to_genai s) :: convert_properties rest
end

/-! ## Schema translation as it actually executes: an object graph

Python schema values are object references, so a schema can reference
itself.  The graph model maps an address to a node whose `properties` and
`items` fields hold addresses; the recursion of _convert_schema_to_genai
is mirrored with an explicit stack-depth budget (`fuel`): a `none` result
means the translation did not complete within that call-stack depth, for
any budget - i.e. the Python recursion exceeds every bound and dies with
RecursionError. -/

/-- A schema node in the object-graph model (child fields are addresses). -/
structure GNode where
  ntype : Option String
  ndescription : Option String
  nproperties : Option (List (String × Nat))
  nitems : Option Nat
  nrequired : Option (List String)

/-- The Python heap fragment holding the schema objects. -/
def SchemaHeap := Nat → Option GNode

/-- _convert_schema_to_genai run on the object graph with call-stack budget
`fuel`; `none` = the budget was exhausted (RecursionError).  The property
loop is a fold: each property translation descends one stack frame, and a
failure anywhere aborts the whole call, exactly as a raised exception
does. -/
def convertGraph (h : SchemaHeap) : Nat → Nat → Option GenSchema
  | 0, _ => none
  | fuel + 1, addr =>
    match h addr with
    | none => none
    | some n =>
      let d := n.ndescription.getD ""
      match n.ntype with
      | some "string" => some (.mk .STRING d [] [] none)
      | some "number" => some (.mk .NUMBER d [] [] none)
      | some "boolean" => some (.mk .BOOLEAN d [] [] none)
      | some "object" =>
          let ps := (n.nproperties.getD []).foldr
            (fun (p : String × Nat) acc =>
              match convertGraph h fuel p.2, acc with
              | some g, some gs => some ((p.1, g) :: gs)
              | _, _ => none)
            (some [])
          match ps with
          | some ps => some (.mk .OBJECT d ps (n.nrequired.getD []) none)
          | none => none
      | some "array" =>
          match n.nitems with
          | some a =>
              match convertGraph h fuel a with
              | some it => some (.mk .ARRAY d [] [] (some it))
              | none => none
          | none => some (.mk .ARRAY d [] [] (some (stringLeaf "")))
      | _ => some (.mk .STRING d [] [] none)

/-- A self-referential schema: the Python dict
`d = {"type": "object"}; d["properties"] = {"self": d}`. -/
def cyclicHeap : SchemaHeap := fun a =>
  if a = 0 then
    some { ntype := some "object", ndescription := none,
           nproperties := some [("self", 0)], nitems := none,
           nrequired := none }
  else none

/-! ## Fallback schemas (staffer/mcp_schema_handler.py) -/

/-- mcp_schema_handler._create_excel_fallback_schema. -/
def create_excel_fallback_schema (tool_name : String) : GenSchema :=
  if tool_name = "excel_read_sheet" then
    .mk .OBJECT ""
      [("fileAbsolutePath", stringLeaf "Absolute path to the Excel file"),
       ("sheetName", stringLeaf "Sheet name in the Excel file"),
       ("range", stringLeaf "Range of cells to read (e.g. A1:C10). Optional - defaults to first page"),
       ("showFormula", .mk .BOOLEAN "Show formula instead of value. Optional - defaults to false" [] [] none)]
      ["fileAbsolutePath", "sheetName"] none
  else if tool_name = "excel_write_to_sheet" then
    .mk .OBJECT ""
      [("fileAbsolutePath", stringLeaf "Absolute path to the Excel file"),
       ("sheetName", stringLeaf "Sheet name in the Excel file"),
       ("range", stringLeaf "Range of cells to write to (e.g. A1:C10)"),
       ("values", stringLeaf "Values to write (as JSON array of arrays)")]
      ["fileAbsolutePath", "sheetName", "range", "values"] none
  else if tool_name = "excel_copy_sheet" then
    .mk .OBJECT ""
      [("fileAbsolutePath", stringLeaf "Absolute path to the Excel file"),
       ("sourceSheetName", stringLeaf "Name of the sheet to copy from"),
       ("targetSheetName", stringLeaf "Name of the new sheet to create")]
      ["fileAbsolutePath", "sourceSheetName", "targetSheetName"] none
  else
    .mk .OBJECT ""
      [("fileAbsolutePath", stringLeaf "Absolute path to the Excel file")]
      ["fileAbsolutePath"] none

/-- mcp_schema_handler._create_analytics_fallback_schema. -/
def create_analytics_fallback_schema (tool_name : String) (_tool_description : String) : GenSchema :=
  let properties := [("dataset", stringLeaf "Dataset name or file path to analyze")]
  let required := ["dataset"]
  if strContainsSub "load" (pyLower tool_name) then
    .mk .OBJECT ""
      (properties ++ [("filePath", stringLeaf "Path to the data file to load")])
      ["filePath"] none
  else if strContainsSub "chart" (pyLower tool_name) || strContainsSub "plot" (pyLower tool_name) then
    .mk .OBJECT ""
      (properties ++
        [("chartType", stringLeaf "Type of chart to create (e.g. bar, line, scatter)"),
         ("xColumn", stringLeaf "Column to use for X-axis"),
         ("yColumn", stringLeaf "Column to use for Y-axis")])
      (required ++ ["chartType", "xColumn", "yColumn"]) none
  else if strContainsSub "correlations" (pyLower tool_name) then
    .mk .OBJECT ""
      (properties ++
        [("columns", stringLeaf "Columns to analyze for correlations (comma-separated)")])
      required none
  else
    .mk .OBJECT "" properties required none

/-- mcp_schema_handler._create_file_operation_fallback_schema. -/
def create_file_operation_fallback_schema (tool_name : String) (_tool_description : String) : GenSchema :=
  let properties := [("filePath", stringLeaf "Path to the file")]
  let required := ["filePath"]
  if strContainsSub "write" (pyLower tool_name) || strContainsSub "save" (pyLower tool_name) then
    .mk .OBJECT ""
      (properties ++ [("content", stringLeaf "Content to write to the file")])
      (required ++ ["content"]) none
  else if strContainsSub "read" (pyLower tool_name) then
    .mk .OBJECT ""
      (properties ++ [("format", stringLeaf "Format to read the file in (optional)")])
      required none
  else
    .mk .OBJECT "" properties required none

/-- mcp_schema_handler._create_generic_fallback_schema. -/
def create_generic_fallback_schema (tool_name : String) (_tool_description : String) : GenSchema :=
  .mk .OBJECT ""
    [("input", stringLeaf ("Input parameters for " ++ tool_name ++ " (as JSON string if needed)"))]
    [] none

/-- mcp_schema_handler.create_fallback_schema_for_tool: name-based heuristic
choice of a fallback schema. -/
def create_fallback_schema_for_tool (tool_name : String) (tool_description : String) : GenSchema :=
  if strContainsSub "excel" (pyLower tool_name) then
    create_excel_fallback_schema tool_name
  else if (["analytics", "data", "chart", "plot"].any
      (fun kw => strContainsSub kw (pyLower tool_name))) then
    create_analytics_fallback_schema tool_name tool_description
  else if (["read", "write", "load", "save"].any
      (fun kw => strContainsSub kw (pyLower tool_name))) then
    create_file_operation_fallback_schema tool_name tool_description
  else
    create_generic_fallback_schema tool_name tool_description

/-- An MCP tool as seen by process_mcp_tool_schema: `parameters` is `none`
when the attribute is absent or falsy; `valid` records whether building a
FunctionDeclaration from the original schema and reading
`.parameters.type` succeeds (it fails on e.g. cyclical references). -/
structure MCPToolMeta where
  name : String
  description : String
  parameters : Option (Bool × GenSchema)

/-- The FunctionDeclaration produced for the orchestrator. -/
structure FunctionDecl where
  name : String
  description : String
  parameters : GenSchema

/-- mcp_schema_handler.process_mcp_tool_schema: keep the original schema when
it is present and valid, otherwise attach a heuristic fallback schema; the
tool is returned (exposed) in every case. -/
def process_mcp_tool_schema (tool : MCPToolMeta) : FunctionDecl :=
  match tool.parameters with
  | some (valid, schema) =>
    if valid then
      { name := tool.name, description := tool.description, parameters := schema }
    else
      { name := tool.name, description := tool.description,
        parameters := create_fallback_schema_for_tool tool.name tool.description }
  | none =>
    { name := tool.name, description := tool.description,
      parameters := create_fallback_schema_for_tool tool.name tool.description }

/-! ## Python values and the runtime environment -/

/-- A Python value as it appears in configuration data and tool arguments. -/
inductive PyVal where
  | str (s : String)
  | int (n : Int)
  | bool (b : Bool)
  | null
  | list (items : List PyVal)
  | dict (entries : List (String × PyVal))

/-- The parts of the OS the source consults: os.getenv and os.path.exists. -/
structure OsEnv where
  getenv : String → Option String
  pathExists : String → Bool

/-! ## Environment-variable substitution (mcp-aggregator/config.py) -/

/-- The value returned by the inner replace_env_var closure of
_substitute_env_vars: the resolved string after type coercion. -/
inductive EnvVal where
  | int (n : Int)
  | bool (b : Bool)
  | str (s : String)
  deriving DecidableEq, Repr

def EnvVal.toPyVal : EnvVal → PyVal
  | .int n => .int n
  | .bool b => .bool b
  | .str s => .str s

/-- Python `str(x)` on the coerced value (used for in-string substitution). -/
def EnvVal.render : EnvVal → String
  | .int n => toString n
  | .bool b => if b then "True" else "False"
  | .str s => s

/-- Split at the first occurrence of ":-" (Python `var_expr.split(":-", 1)`). -/
def splitColonDash : List Char → Option (List Char × List Char)
  | [] => none
  | ':' :: '-' :: rest => some ([], rest)
  | c :: rest =>
    match splitColonDash rest with
    | some (a, b) => some (c :: a, b)
    | none => none

/-- config.replace_env_var on the captured `[^}]+` group: resolve the
variable (with optional `:-` default) and coerce digit strings to int and
true/false to bool. -/
def replace_env_var (env : OsEnv) (varExpr : List Char) : EnvVal :=
  let value :=
    match splitColonDash varExpr with
    | some (varName, defaultValue) =>
      (env.getenv (pyStrip ⟨varName⟩)).getD (pyStrip ⟨defaultValue⟩)
    | none =>
      (env.getenv (pyStrip ⟨varExpr⟩)).getD ""
  if pyIsDigit value then .int (pyInt value)
  else if pyLower value = "true" then .bool true
  else if pyLower value = "false" then .bool false
  else .str value

/-- re.fullmatch of the whole string against the pattern
`\x5c$\x5c\x7b([^\x7d]+)\x5c\x7d`: the entire string is one placeholder;
returns the captured group. -/
def fullmatchPlaceholder : List Char → Option (List Char)
  | c1 :: c2 :: rest =>
    if c1 = '$' ∧ c2 = '{' then
      let content := rest.dropLast
      if rest.getLast? = some '}' && !content.isEmpty &&
          content.all (fun c => c ≠ '}') then
        some content
      else
        none
    else none
  | _ => none

/-- Scanner state while re.sub walks the string: `plain` between matches,
`dollar` right after a pending `$`, `inside buf` after an opening
`$`-brace with the (reversed) group characters read so far.  Because the
group pattern `[^\x7d]+` cannot cross a closing brace, the regex match
starting at a given `$`-brace is decided exactly by the next closing
brace, which is what this automaton tracks. -/
inductive ScanState where
  | plain
  | dollar
  | inside (buf : List Char)

/-- re.sub of the placeholder pattern over the characters of a string,
replacing each non-overlapping match left to right by
`str(replace_env_var(m))`. -/
def substChars (env : OsEnv) : ScanState → List Char → List Char
  | .plain, [] => []
  | .plain, c :: rest =>
    if c = '$' then substChars env .dollar rest
    else c :: substChars env .plain rest
  | .dollar, [] => ['$']
  | .dollar, c :: rest =>
    if c = '{' then substChars env (.inside []) rest
    else if c = '$' then '$' :: substChars env .dollar rest
    else '$' :: c :: substChars env .plain rest
  | .inside buf, [] => '$' :: '{' :: buf.reverse
  | .inside buf, c :: rest =>
    if c = '}' then
      if buf.isEmpty then '$' :: '{' :: '}' :: substChars env .plain rest
      else (replace_env_var env buf.reverse).render.data ++ substChars env .plain rest
    else substChars env (.inside (c :: buf)) rest

/-- Whether the scan from a given state would find any match (used only to
state that a string without a placeholder is left unchanged). -/
def hasPlaceholderFrom : ScanState → List Char → Bool
  | .plain, [] => false
  | .plain, c :: rest =>
    if c = '$' then hasPlaceholderFrom .dollar rest
    else hasPlaceholderFrom .plain rest
  | .dollar, [] => false
  | .dollar, c :: rest =>
    if c = '{' then hasPlaceholderFrom (.inside []) rest
    else if c = '$' then hasPlaceholderFrom .dollar rest
    else hasPlaceholderFrom .plain rest
  | .inside _, [] => false
  | .inside buf, c :: rest =>
    if c = '}' then
      if buf.isEmpty then hasPlaceholderFrom .plain rest else true
    else hasPlaceholderFrom (.inside (c :: buf)) rest

mutual
/-- config._substitute_env_vars: recursively rewrite `$`-brace placeholders
in strings; a whole-placeholder string gets the type-coerced value, other
matches are substituted textually via str(); dicts and lists are mapped
recursively; any other value is returned unchanged. -/
def substitute_env_vars (env : OsEnv) : PyVal → PyVal
  | .str s =>
    (match fullmatchPlaceholder s.data with
     | some content => (replace_env_var env content).toPyVal
     | none => .str ⟨substChars env .plain s.data⟩)
  | .dict entries => .dict (substDictEntries env entries)
  | .list items => .list (substListItems env items)
  | other => other

/-- The dict comprehension of _substitute_env_vars. -/
def substDictEntries (env : OsEnv) : List (String × PyVal) → List (String × PyVal)
  | [] => []
  | (k, v) :: rest => (k, substitute_env_vars env v) :: substDictEntries env rest

/-- The list comprehension of _substitute_env_vars. -/
def substListItems (env : OsEnv) : List PyVal → List PyVal
  | [] => []
  | v :: rest => substitute_env_vars env v :: substListItems env rest
end

/-! ## POSIX path operations (os.path as used by the source) -/

/-- posixpath.isabs. -/
def pyIsAbs (s : String) : Bool :=
  s.data.head? = some '/'

/-- posixpath.join for two components. -/
def pyJoin (a b : String) : String :=
  if pyIsAbs b then b
  else if a = "" || a.data.getLast? = some '/' then a ++ b
  else a ++ "/" ++ b

/-- `path.split(sep)` on character lists. -/
def splitSlashAux : List Char → List Char → List (List Char)
  | [], acc => [acc.reverse]
  | '/' :: rest, acc => acc.reverse :: splitSlashAux rest []
  | c :: rest, acc => splitSlashAux rest (c :: acc)

/-- posixpath.normpath: collapse `.` and empty components, resolve `..`,
preserve one (or exactly two) leading slashes. -/
def pyNormpath (path : String) : String :=
  if path = "" then "."
  else
    let cs := path.data
    let initialSlashes : Nat :=
      if cs.head? = some '/' then
        if charsHasPre ['/', '/'] cs && !charsHasPre ['/', '/', '/'] cs then 2 else 1
      else 0
    let comps := splitSlashAux cs []
    let newComps := comps.foldl (fun acc comp =>
      if comp = [] || comp = ['.'] then acc
      else if comp ≠ ['.', '.'] || (initialSlashes = 0 && acc = []) ||
          (acc ≠ [] && acc.getLast? = some ['.', '.']) then acc ++ [comp]
      else if acc ≠ [] then acc.dropLast
      else acc) []
    let joined := List.replicate initialSlashes '/' ++ List.intercalate ['/'] newComps
    if joined = [] then "." else ⟨joined⟩

/-- posixpath.abspath with the process working directory made explicit. -/
def pyAbspath (cwd path : String) : String :=
  if pyIsAbs path then pyNormpath path else pyNormpath (pyJoin cwd path)

/-- Length of the common component prefix (posixpath.relpath inner loop). -/
def commonLen : List (List Char) → List (List Char) → Nat
  | a :: as, b :: bs => if a = b then 1 + commonLen as bs else 0
  | _, _ => 0

/-- posixpath.relpath(path, start) with the process working directory made
explicit; on POSIX this never raises. -/
def pyRelpath (cwd path start : String) : String :=
  let pathList := (splitSlashAux (pyAbspath cwd path).data []).filter (fun c => c ≠ [])
  let startList := (splitSlashAux (pyAbspath cwd start).data []).filter (fun c => c ≠ [])
  let i := commonLen startList pathList
  let relList := List.replicate (startList.length - i) ['.', '.'] ++ pathList.drop i
  if relList = [] then "." else ⟨List.intercalate ['/'] relList⟩

/-! ## Argument path resolver (staffer/mcp_path_handler.py) -/

/-- The cross-provider file parameter name convention set. -/
def file_param_names : List String :=
  ["fileAbsolutePath", "filePath", "inputFile", "outputFile", "outputPath",
   "configFile", "relativePath", "dataFile", "csvFile", "jsonFile",
   "file", "path", "input_file", "output_file", "dataset", "filename"]

/-- mcp_path_handler.convert_relative_to_absolute_paths: join relative
string values of file-parameter keys with the working directory. -/
def convert_relative_to_absolute_paths (cwd : String)
    (arguments : List (String × PyVal)) (working_directory : String) :
    List (String × PyVal) :=
  arguments.map (fun kv =>
    match kv with
    | (key, .str v) =>
      if key ∈ file_param_names then
        if !pyIsAbs v then
          (key, .str (pyAbspath cwd (pyJoin working_directory v)))
        else
          (key, .str v)
      else
        (key, .str v)
    | other => other)

/-- mcp_path_handler.get_tool_path_strategy. -/
def get_tool_path_strategy (tool_name : String) : String :=
  let absolute_required_tools :=
    ["excel_read_sheet", "excel_write_to_sheet", "excel_describe_sheets",
     "excel_copy_sheet", "excel_create_table"]
  let relative_preferred_tools := ["load_dataset", "read_csv", "write_csv"]
  if tool_name ∈ absolute_required_tools then "absolute_required"
  else if tool_name ∈ relative_preferred_tools then "relative_preferred"
  else "flexible"

/-- mcp_path_handler.prepare_arguments_for_tool: rewrite file-parameter
values according to the tool's path strategy.  On POSIX os.path.relpath
never raises, so the ValueError branch of the source is vacuous. -/
def prepare_arguments_for_tool (cwd : String) (tool_name : String)
    (arguments : List (String × PyVal)) (working_directory : String) :
    List (String × PyVal) :=
  let strategy := get_tool_path_strategy tool_name
  if strategy = "absolute_required" then
    convert_relative_to_absolute_paths cwd arguments working_directory
  else if strategy = "relative_preferred" then
    arguments.map (fun kv =>
      match kv with
      | (key, .str v) =>
        if key ∈ file_param_names then
          if pyIsAbs v then
            (key, .str (pyRelpath cwd v working_directory))
          else
            (key, .str v)
        else
          (key, .str v)
      | other => other)
  else
    arguments

/-! ## Configuration model (mcp-aggregator/config.py) -/

/-- config.ServerConfig (dataclass fields). -/
structure ServerConfig where
  name : String
  command : String
  args : List String
  cwd : String
  tool_filter : Option (List String)
  priority : Int
  enabled : Bool
  cwd_env : Option String
  deriving DecidableEq, Repr

/-- The ServerConfig constructor including dataclass __post_init__: when
cwd_env is set (truthy) and the environment variable resolves to a
non-empty path, cwd is replaced by it. -/
def mkServerConfig (env : OsEnv) (name command : String) (args : List String)
    (cwd : String) (tool_filter : Option (List String)) (priority : Int)
    (enabled : Bool) (cwd_env : Option String) : ServerConfig :=
  let resolvedCwd :=
    match cwd_env with
    | some ce =>
      if ce ≠ "" then
        match env.getenv ce with
        | some p => if p ≠ "" then p else cwd
        | none => cwd
      else cwd
    | none => cwd
  ⟨name, command, args, resolvedCwd, tool_filter, priority, enabled, cwd_env⟩

/-- ServerConfig.is_available: enabled and cwd set and existing. -/
def ServerConfig.is_available (env : OsEnv) (c : ServerConfig) : Bool :=
  c.enabled && c.cwd ≠ "" && env.pathExists c.cwd

/-- config.AggregatorConfig. -/
structure AggregatorConfig where
  domain : String
  model : String
  instruction : String
  source_servers : List ServerConfig
  tool_selection : List (String × PyVal)

/-- A raw provider entry dict inside source_servers (absent key = none). -/
structure RawServerMap where
  name : Option String
  command : Option String
  args : Option (List String)
  cwd : Option String
  cwd_env : Option String
  tool_filter : Option (List String)
  priority : Option Int
  enabled : Option Bool

/-- One element of a raw source_servers list: an already-typed record, a
raw map, or something else entirely (None, a string, a number, ...). -/
inductive RawServerEntry where
  | typed (sc : ServerConfig)
  | rmap (m : RawServerMap)
  | invalid

/-- A raw configuration dict as passed to normalize_config_dict. -/
structure RawConfigDict where
  domain : Option String
  model : Option String
  instruction : Option String
  source_servers : Option (List RawServerEntry)
  tool_selection : Option (List (String × PyVal))

/-- The per-entry body of normalize_config_dict's source_servers loop:
typed records pass through untouched, maps are converted (with defaults),
anything else is skipped. -/
def normalizeServerEntry (env : OsEnv) : RawServerEntry → Option ServerConfig
  | .typed sc => some sc
  | .rmap m =>
    some (match m.cwd with
      | some cwdVal =>
        mkServerConfig env (m.name.getD "unknown") (m.command.getD "")
          (m.args.getD []) cwdVal m.tool_filter (m.priority.getD 1)
          (m.enabled.getD true) none
      | none =>
        mkServerConfig env (m.name.getD "unknown") (m.command.getD "")
          (m.args.getD []) "" m.tool_filter (m.priority.getD 1)
          (m.enabled.getD true) (some (m.cwd_env.getD "")))
  | .invalid => none

/-- config.normalize_config_dict. -/
def normalize_config_dict (env : OsEnv) (d : RawConfigDict) : AggregatorConfig :=
  { domain := d.domain.getD ""
    model := d.model.getD ""
    instruction := d.instruction.getD ""
    source_servers := (d.source_servers.getD []).filterMap (normalizeServerEntry env)
    tool_selection := d.tool_selection.getD [] }

/-- What normalize_config_dict can actually be handed at runtime: a raw
dict, or (when composed with itself) the AggregatorConfig it previously
returned - on which the very first statement `config_dict.get(...)`
raises AttributeError, since the dataclass has no `get` method. -/
inductive ConfigInput where
  | pydict (d : RawConfigDict)
  | typedConfig (c : AggregatorConfig)

/-- normalize_config_dict under Python duck typing. -/
def normalize_config_dyn (env : OsEnv) : ConfigInput → Except String AggregatorConfig
  | .pydict d => .ok (normalize_config_dict env d)
  | .typedConfig _ =>
    .error "AttributeError: AggregatorConfig object has no attribute get"

/-! ## Discovery engine (mcp-aggregator/discovery.py) -/

/-- A raw ADK tool: name, description, and its run_async behaviour. -/
structure AdkTool where
  name : String
  description : String
  run : List (String × PyVal) → Except String PyVal

/-- The external MCP transport: listing tools for a named server either
yields the server's tools or fails (connection, timeout, protocol). -/
structure MCPWorld where
  listTools : String → Except String (List AdkTool)

/-- Python dict insertion: overwrite in place, else append. -/
def dinsert {V : Type} (k : String) (v : V) : List (String × V) → List (String × V)
  | [] => [(k, v)]
  | (k', v') :: rest =>
    if k' = k then (k, v) :: rest else (k', v') :: dinsert k v rest

/-- Python dict lookup. -/
def dlookup {V : Type} (k : String) : List (String × V) → Option V
  | [] => none
  | (k', v) :: rest => if k' = k then some v else dlookup k rest

/-- ToolDiscoveryEngine state: TTL and cache (conflict/diagnostic lists of
the source are operator-facing prints and are omitted). -/
structure DiscoveryEngine where
  cache_duration : Nat
  cache : List (String × (Nat × List (String × AdkTool)))

/-- The cache key f-string of _discover_server_tools. -/
def cache_key (c : ServerConfig) : String :=
  c.name ++ "_" ++ toString c.priority

/-- ToolDiscoveryEngine._discover_server_tools: serve a fresh-enough cache
entry, otherwise contact the server; a successful round trip is cached,
any error yields an empty map and leaves the engine untouched. -/
def discover_server_tools (w : MCPWorld) (now : Nat) (eng : DiscoveryEngine)
    (c : ServerConfig) : List (String × AdkTool) × DiscoveryEngine :=
  let fetch : Unit → List (String × AdkTool) × DiscoveryEngine := fun _ =>
    match w.listTools c.name with
    | .ok tools_list =>
      let tools_dict := tools_list.foldl (fun acc t => dinsert t.name t acc) []
      (tools_dict,
        { eng with cache := dinsert (cache_key c) (now, tools_dict) eng.cache })
    | .error _ => ([], eng)
  match dlookup (cache_key c) eng.cache with
  | some (cached_time, tools) =>
    if now - cached_time < eng.cache_duration then (tools, eng) else fetch ()
  | none => fetch ()

/-- One value of the tool-keyed map built by discover_all_tools. -/
structure DiscEntry where
  tool : AdkTool
  source : String
  priority : Int

/-- The asyncio.gather fan-out of discover_all_tools: one discovery per
task, results in task order (each task owns its own cache key, so the
cooperative interleaving is equivalent to this sequence). -/
def run_discovery_tasks (w : MCPWorld) (now : Nat) :
    DiscoveryEngine → List ServerConfig →
    List (List (String × AdkTool)) × DiscoveryEngine
  | eng, [] => ([], eng)
  | eng, c :: rest =>
    let d := discover_server_tools w now eng c
    let ds := run_discovery_tasks w now d.2 rest
    (d.1 :: ds.1, ds.2)

/-- The result-combination loop of discover_all_tools.  Results are
enumerated against the **parameter** list server_configs even though the
tasks were built from its availability-filtered sublist, exactly as in
the source (`server_configs[i] if i < len(server_configs) else None`). -/
def merge_discovery_results (server_configs : List ServerConfig) :
    Nat → List (List (String × AdkTool)) → List (String × DiscEntry) →
    List (String × DiscEntry)
  | _, [], all_tools => all_tools
  | i, result :: rest, all_tools =>
    match server_configs.get? i with
    | none =>
      -- index past the parameter list: the source would hand None on to
      -- the metadata block; unreachable because there is at most one
      -- result per (filtered) config
      merge_discovery_results server_configs (i + 1) rest all_tools
    | some server_config =>
      if result.isEmpty then
        merge_discovery_results server_configs (i + 1) rest all_tools
      else
        merge_discovery_results server_configs (i + 1) rest
          (result.foldl (fun acc p =>
            dinsert p.1 ⟨p.2, server_config.name, server_config.priority⟩ acc)
            all_tools)

/-- ToolDiscoveryEngine._resolve_conflicts: rebuild the map keeping, per
name, the higher priority (strictly higher replaces). -/
def resolve_conflicts (tools : List (String × DiscEntry)) :
    List (String × DiscEntry) :=
  tools.foldl (fun resolved (p : String × DiscEntry) =>
    match dlookup p.1 resolved with
    | some current =>
      if p.2.priority > current.priority then dinsert p.1 p.2 resolved
      else resolved
    | none => dinsert p.1 p.2 resolved) []

/-- ToolDiscoveryEngine.discover_all_tools. -/
def discover_all_tools (w : MCPWorld) (env : OsEnv) (now : Nat)
    (eng : DiscoveryEngine) (server_configs : List ServerConfig) :
    List (String × DiscEntry) × DiscoveryEngine :=
  let tasks := server_configs.filter (fun c => c.is_available env)
  if tasks.isEmpty then ([], eng)
  else
    let pr := run_discovery_tasks w now eng tasks
    (resolve_conflicts (merge_discovery_results server_configs 0 pr.1 []),
      pr.2)

/-! ## Composer (mcp-aggregator/composer.py) -/

/-- A value stored in one of discover_all_tools's per-tool metadata dicts;
the composer indexes these dicts expecting config/tools keys. -/
inductive SDVal where
  | vtool (t : AdkTool)
  | vstr (s : String)
  | vint (n : Int)
  | vcfg (c : ServerConfig)
  | vtools (d : List (String × AdkTool))

/-- The Python dict a DiscEntry actually is: keys tool, source, priority. -/
def DiscEntry.asDict (e : DiscEntry) : List (String × SDVal) :=
  [("tool", .vtool e.tool), ("source", .vstr e.source),
   ("priority", .vint e.priority)]

/-- GenericMCPServerComposer._apply_tool_filter: `if not tool_filter`
(None or the empty list) keeps everything, else keep listed names. -/
def apply_tool_filter (tools : List (String × AdkTool))
    (tool_filter : Option (List String)) : List (String × AdkTool) :=
  match tool_filter with
  | none => tools
  | some [] => tools
  | some fl => tools.filter (fun p => p.1 ∈ fl)

/-- The winning entry stored per tool name by the composer's fold. -/
structure ToolInfo where
  tool : AdkTool
  priority : Int
  source : String

/-- The conflict-resolution fold of get_all_tools (composer.py lines
70-90): a registered name is replaced only by a strictly higher priority;
otherwise the registered entry is kept. -/
def composer_fold_server (server_name : String) (server_priority : Int)
    (filtered_tools : List (String × AdkTool))
    (all_tools : List (String × ToolInfo)) : List (String × ToolInfo) :=
  filtered_tools.foldl (fun acc (p : String × AdkTool) =>
    match dlookup p.1 acc with
    | some existing =>
      if server_priority > existing.priority then
        dinsert p.1 ⟨p.2, server_priority, server_name⟩ acc
      else acc
    | none => dinsert p.1 ⟨p.2, server_priority, server_name⟩ acc) all_tools

/-- The per-server loop of get_all_tools: each entry of the discovery
result is unpacked as a config/tools metadata dict; a missing key raises
KeyError, modelled as an error result. -/
def get_all_tools_loop :
    List (String × DiscEntry) → List (String × ToolInfo) →
    Except String (List (String × ToolInfo))
  | [], all_tools => .ok all_tools
  | (server_name, server_data) :: rest, all_tools =>
    match dlookup "config" server_data.asDict with
    | none => .error "KeyError: config"
    | some (.vcfg server_config) =>
      match dlookup "tools" server_data.asDict with
      | none => .error "KeyError: tools"
      | some (.vtools server_tools) =>
        let filtered_tools := apply_tool_filter server_tools server_config.tool_filter
        get_all_tools_loop rest
          (composer_fold_server server_name server_config.priority
            filtered_tools all_tools)
      | some _ => .error "TypeError: tools entry has unexpected type"
    | some _ => .error "TypeError: config entry has unexpected type"

/-- GenericMCPServerComposer.get_all_tools: discover from the available
servers, then filter and fold with conflict resolution, returning the
winning raw tools (exceptions escape as errors). -/
def get_all_tools (w : MCPWorld) (env : OsEnv) (now : Nat)
    (eng : DiscoveryEngine) (cfg : AggregatorConfig) :
    Except String (List AdkTool) × DiscoveryEngine :=
  let server_configs := cfg.source_servers
  if server_configs.isEmpty then (.ok [], eng)
  else
    let available_configs := server_configs.filter (fun c => c.is_available env)
    let pr := discover_all_tools w env now eng available_configs
    if pr.1.isEmpty then (.ok [], pr.2)
    else
      match get_all_tools_loop pr.1 [] with
      | .ok all_tools => (.ok (all_tools.map (fun p => p.2.tool)), pr.2)
      | .error e => (.error e, pr.2)

/-- A single-quote character, written by code point. -/
def squote : String := String.singleton (Char.ofNat 39)

/-- The message of the ValueError raised by call_tool. -/
def tool_not_found_message (tool_name : String) : String :=
  "Tool " ++ squote ++ tool_name ++ squote ++
    " not found in any configured MCP server"

/-- The server loop of GenericMCPServerComposer.call_tool: skip
unavailable servers; discover each remaining server's tools; on the first
one offering the name, run it and return the raw result; any exception
(only the run can raise - discovery swallows its own) is caught and the
loop continues; exhaustion raises ValueError naming the tool. -/
def call_tool_servers (w : MCPWorld) (env : OsEnv) (now : Nat) :
    DiscoveryEngine → List ServerConfig → String → List (String × PyVal) →
    Except String PyVal × DiscoveryEngine
  | eng, [], tool_name, _ => (.error (tool_not_found_message tool_name), eng)
  | eng, server_config :: rest, tool_name, arguments =>
    if !server_config.is_available env then
      call_tool_servers w env now eng rest tool_name arguments
    else
      let pr := discover_server_tools w now eng server_config
      match dlookup tool_name pr.1 with
      | some adk_tool =>
        match adk_tool.run arguments with
        | .ok result => (.ok result, pr.2)
        | .error _ => call_tool_servers w env now pr.2 rest tool_name arguments
      | none => call_tool_servers w env now pr.2 rest tool_name arguments

/-- GenericMCPServerComposer.call_tool. -/
def call_tool (w : MCPWorld) (env : OsEnv) (now : Nat)
    (eng : DiscoveryEngine) (cfg : AggregatorConfig) (tool_name : String)
    (arguments : List (String × PyVal)) :
    Except String PyVal × DiscoveryEngine :=
  call_tool_servers w env now eng cfg.source_servers tool_name arguments

/-! ## Shared helper lemmas -/

theorem dlookup_dinsert {V : Type} (k k' : String) (v : V) (l : List (String × V)) :
    dlookup k (dinsert k' v l) = if k' = k then some v else dlookup k l := by
  induction l with
  | nil => by_cases h : k' = k <;> simp [dinsert, dlookup, h]
  | cons hd t ih =>
    obtain ⟨k0, v0⟩ := hd
    by_cases h0 : k0 = k'
    · subst h0
      by_cases h1 : k0 = k <;> simp [dinsert, dlookup, h1]
    · by_cases h1 : k0 = k
      · subst h1
        have h2 : k' ≠ k0 := fun he => h0 he.symm
        simp [dinsert, dlookup, h0, h2]
      · simp [dinsert, dlookup, h0, h1, ih]

theorem convert_properties_eq_map (l : List (String × JSchema)) :
    convert_properties l = l.map (fun p => (p.1, convert_schema_to_genai p.2)) := by
  induction l with
  | nil => rfl
  | cons h t ih => obtain ⟨n, s⟩ := h; simp [convert_properties, ih]

/-! ## C4: the schema translation has no cycle guard or recursion bound -/

/-- C4 (code bug): the spec demands that schema translation terminate on
self-referential input via bounded recursion or a cycle guard, but
_convert_schema_to_genai recurses on the raw structure with no guard: on
the self-referential schema `d = ("type": object, properties: (self: d))`
no call-stack budget whatsoever lets the translation complete - the
Python recursion exceeds every depth and dies with RecursionError
(sanitize_schema in mcp_schema_handler.py recurses unguarded in the same
way). -/
theorem c4_cyclic_schema_never_translates :
    ∀ fuel : Nat, convertGraph cyclicHeap fuel 0 = none := by
  intro fuel
  induction fuel with
  | zero => rfl
  | succ f ih => simp [convertGraph, cyclicHeap, ih]

/-! ## C3: fallback schema heuristics -/

/-- C3 (counterexample): the claim says every tool name that is neither
spreadsheet-like nor analytics/data-like falls back to a single generic
"input" parameter, but "read_file" hits a fourth, file-operation bucket
and gets (filePath, format) instead. -/
theorem c3_counterexample :
    (create_fallback_schema_for_tool "read_file" "Read a file").propNames
        = ["filePath", "format"] ∧
      (create_fallback_schema_for_tool "read_file" "Read a file").propNames
        ≠ ["input"] := by
  constructor
  · rfl
  · decide

theorem excel_fallback_props (tool_name : String) :
    "fileAbsolutePath" ∈ (create_excel_fallback_schema tool_name).propNames ∧
      "fileAbsolutePath" ∈ (create_excel_fallback_schema tool_name).grequired := by
  unfold create_excel_fallback_schema
  split
  · exact ⟨by decide, by decide⟩
  · split
    · exact ⟨by decide, by decide⟩
    · split
      · exact ⟨by decide, by decide⟩
      · exact ⟨by decide, by decide⟩

theorem analytics_fallback_props (tool_name d : String) :
    "dataset" ∈ (create_analytics_fallback_schema tool_name d).propNames := by
  unfold create_analytics_fallback_schema
  split
  · decide
  · split
    · decide
    · split
      · decide
      · decide

theorem file_op_fallback_props (tool_name d : String) :
    "filePath" ∈ (create_file_operation_fallback_schema tool_name d).propNames ∧
      "filePath" ∈ (create_file_operation_fallback_schema tool_name d).grequired := by
  unfold create_file_operation_fallback_schema
  split
  · exact ⟨by decide, by decide⟩
  · split
    · exact ⟨by decide, by decide⟩
    · exact ⟨by decide, by decide⟩

theorem fallback_gtype_object (tool_name d : String) :
    (create_fallback_schema_for_tool tool_name d).gtype = .OBJECT := by
  unfold create_fallback_schema_for_tool
  split
  · unfold create_excel_fallback_schema
    split
    · rfl
    · split
      · rfl
      · split
        · rfl
        · rfl
  · split
    · unfold create_analytics_fallback_schema
      split
      · rfl
      · split
        · rfl
        · split
          · rfl
          · rfl
    · split
      · unfold create_file_operation_fallback_schema
        split
        · rfl
        · split
          · rfl
          · rfl
      · rfl

/-- C3 (amended): fallback schemas are synthesized from the tool name by
**four** heuristic buckets, not three: excel-named tools get
excel-specific schemas keyed on a file path (plus sheet fields for the
specifically known names); analytics/data/chart/plot-named tools get a
dataset-keyed schema; read/write/load/save-named tools get a
file-operation schema keyed on filePath (plus content or format); every
other name gets the single generic string parameter "input"; and
process_mcp_tool_schema always exposes the tool under its own name,
attaching the heuristic fallback whenever the original schema is absent
(or fails validation). -/
theorem c3_fallback_schema :
    (∀ tool_name d : String,
      (create_fallback_schema_for_tool tool_name d).gtype = .OBJECT) ∧
    (∀ tool_name d : String,
      strContainsSub "excel" (pyLower tool_name) = true →
        "fileAbsolutePath" ∈ (create_fallback_schema_for_tool tool_name d).propNames ∧
        "fileAbsolutePath" ∈ (create_fallback_schema_for_tool tool_name d).grequired) ∧
    (∀ tool_name d : String,
      strContainsSub "excel" (pyLower tool_name) = false →
      (["analytics", "data", "chart", "plot"].any
        (fun kw => strContainsSub kw (pyLower tool_name))) = true →
        "dataset" ∈ (create_fallback_schema_for_tool tool_name d).propNames) ∧
    (∀ tool_name d : String,
      strContainsSub "excel" (pyLower tool_name) = false →
      (["analytics", "data", "chart", "plot"].any
        (fun kw => strContainsSub kw (pyLower tool_name))) = false →
      (["read", "write", "load", "save"].any
        (fun kw => strContainsSub kw (pyLower tool_name))) = true →
        "filePath" ∈ (create_fallback_schema_for_tool tool_name d).propNames ∧
        "filePath" ∈ (create_fallback_schema_for_tool tool_name d).grequired) ∧
    (∀ tool_name d : String,
      strContainsSub "excel" (pyLower tool_name) = false →
      (["analytics", "data", "chart", "plot"].any
        (fun kw => strContainsSub kw (pyLower tool_name))) = false →
      (["read", "write", "load", "save"].any
        (fun kw => strContainsSub kw (pyLower tool_name))) = false →
        (create_fallback_schema_for_tool tool_name d).propNames = ["input"] ∧
        (create_fallback_schema_for_tool tool_name d).grequired = []) ∧
    (∀ tool : MCPToolMeta,
      (process_mcp_tool_schema tool).name = tool.name ∧
      (tool.parameters = none →
        (process_mcp_tool_schema tool).parameters =
          create_fallback_schema_for_tool tool.name tool.description)) := by
  refine ⟨fallback_gtype_object, ?_, ?_, ?_, ?_, ?_⟩
  · intro tool_name d hx
    unfold create_fallback_schema_for_tool
    simp only [hx, if_true]
    exact excel_fallback_props tool_name
  · intro tool_name d hx ha
    unfold create_fallback_schema_for_tool
    simp only [hx, ha, Bool.false_eq_true, if_false, if_true]
    exact analytics_fallback_props tool_name d
  · intro tool_name d hx ha hf
    unfold create_fallback_schema_for_tool
    simp only [hx, ha, hf, Bool.false_eq_true, if_false, if_true]
    exact file_op_fallback_props tool_name d
  · intro tool_name d hx ha hf
    unfold create_fallback_schema_for_tool
    simp only [hx, ha, hf, Bool.false_eq_true, if_false]
    exact ⟨rfl, rfl⟩
  · intro tool
    constructor
    · unfold process_mcp_tool_schema
      match h : tool.parameters with
      | none => simp
      | some (valid, schema) => cases valid <;> simp
    · intro hp
      unfold process_mcp_tool_schema
      rw [hp]

/-- C3 witness: the amended theorem at concrete inputs. -/
theorem c3_fallback_schema_witness :
    "fileAbsolutePath" ∈
        (create_fallback_schema_for_tool "excel_read_sheet" "d").propNames ∧
      (create_fallback_schema_for_tool "mystery_tool" "d").propNames = ["input"] := by
  constructor
  · exact (c3_fallback_schema.2.1 "excel_read_sheet" "d" (by decide)).1
  · exact (c3_fallback_schema.2.2.2.2.1 "mystery_tool" "d" (by decide) (by decide)
      (by decide)).1

/-! ## C5: schema translation by type tag -/

/-- The worked example of the spec:
(type object, properties (items: array of string), required (items)). -/
def exampleSchema : JSchema :=
  .mk (some "object") none
    (some [("items",
      .mk (some "array") none none
        (some (.mk (some "string") none none none none)) none)])
    none (some ["items"])

/-- C5: the translator maps each node by its type tag - string, number
and boolean become the matching scalar leaf with the description
preserved; object recursively translates each property and copies the
required list verbatim (missing properties = empty property set); array
recursively translates items, defaulting to string items when absent;
a missing or unknown type falls back to a string leaf; and the spec's
worked example translates to an object schema with an array-of-string
property whose name appears in the output's required list. -/
theorem c5_schema_translation (ty ds : Option String)
    (props : Option (List (String × JSchema))) (items : Option JSchema)
    (req : Option (List String)) :
    (ty = some "string" →
      convert_schema_to_genai (.mk ty ds props items req)
        = .mk .STRING (ds.getD "") [] [] none) ∧
    (ty = some "number" →
      convert_schema_to_genai (.mk ty ds props items req)
        = .mk .NUMBER (ds.getD "") [] [] none) ∧
    (ty = some "boolean" →
      convert_schema_to_genai (.mk ty ds props items req)
        = .mk .BOOLEAN (ds.getD "") [] [] none) ∧
    (ty = some "object" →
      convert_schema_to_genai (.mk ty ds props items req)
        = .mk .OBJECT (ds.getD "")
            ((props.getD []).map (fun p => (p.1, convert_schema_to_genai p.2)))
            (req.getD []) none) ∧
    (ty = some "array" →
      convert_schema_to_genai (.mk ty ds props items req)
        = .mk .ARRAY (ds.getD "") [] []
            (some (match items with
                   | some s => convert_schema_to_genai s
                   | none => stringLeaf ""))) ∧
    (ty = none →
      convert_schema_to_genai (.mk ty ds props items req)
        = .mk .STRING (ds.getD "") [] [] none) ∧
    (∀ t, ty = some t →
      t ∉ (["string", "number", "boolean", "object", "array"] : List String) →
      convert_schema_to_genai (.mk ty ds props items req)
        = .mk .STRING (ds.getD "") [] [] none) ∧
    (convert_schema_to_genai exampleSchema
        = .mk .OBJECT ""
            [("items", .mk .ARRAY "" [] [] (some (stringLeaf "")))]
            ["items"] none ∧
      "items" ∈ (convert_schema_to_genai exampleSchema).grequired) := by
  refine ⟨?_, ?_, ?_, ?_, ?_, ?_, ?_, ?_, ?_⟩
  · intro h; subst h; rfl
  · intro h; subst h; rfl
  · intro h; subst h; rfl
  · intro h
    subst h
    cases props with
    | none => rfl
    | some l =>
      show GenSchema.mk .OBJECT (ds.getD "") (convert_properties l) (req.getD []) none = _
      rw [convert_properties_eq_map]
      rfl
  · intro h
    subst h
    cases items with
    | none => rfl
    | some s => rfl
  · intro h; subst h; rfl
  · intro t ht hmem
    subst ht
    have h1 : t ≠ "string" := by intro he; exact hmem (by rw [he]; decide)
    have h2 : t ≠ "number" := by intro he; exact hmem (by rw [he]; decide)
    have h3 : t ≠ "boolean" := by intro he; exact hmem (by rw [he]; decide)
    have h4 : t ≠ "object" := by intro he; exact hmem (by rw [he]; decide)
    have h5 : t ≠ "array" := by intro he; exact hmem (by rw [he]; decide)
    show convert_schema_to_genai (.mk (some t) ds props items req) = _
    unfold convert_schema_to_genai
    split
    all_goals first
      | rfl
      | (rename_i heq
         rw [Option.some_inj] at heq
         first
           | exact absurd heq h1
           | exact absurd heq h2
           | exact absurd heq h3
           | exact absurd heq h4
           | exact absurd heq h5)
  · rfl
  · decide

/-- C5 witness: the theorem applied at concrete inputs, discharging its
hypotheses. -/
theorem c5_schema_translation_witness :
    convert_schema_to_genai
        (.mk (some "string") (some "the description") none none none)
      = .mk .STRING "the description" [] [] none ∧
    convert_schema_to_genai (.mk (some "mystery") none none none none)
      = .mk .STRING "" [] [] none := by
  constructor
  · exact (c5_schema_translation (some "string") (some "the description")
      none none none).1 rfl
  · exact (c5_schema_translation (some "mystery") none none none
      none).2.2.2.2.2.2.1 "mystery" rfl (by decide)

/-! ## C7: argument path resolver -/

theorem strategy_cases (tool_name : String) :
    get_tool_path_strategy tool_name = "absolute_required" ∨
      get_tool_path_strategy tool_name = "relative_preferred" ∨
      get_tool_path_strategy tool_name = "flexible" := by
  unfold get_tool_path_strategy
  by_cases h1 : tool_name ∈
      ["excel_read_sheet", "excel_write_to_sheet", "excel_describe_sheets",
       "excel_copy_sheet", "excel_create_table"]
  · simp [h1]
  · by_cases h2 : tool_name ∈ ["load_dataset", "read_csv", "write_csv"] <;>
      simp [h1, h2]

/-- C7: prepare_arguments_for_tool rewrites only values whose key is in
the path-parameter convention set: under the absolute-required strategy a
relative path becomes the working directory joined with it (an absolute
one is unchanged); under relative-preferred an absolute path becomes
relative to the working directory (derivable on POSIX, so never left by
exception); under flexible everything is untouched; non-path keys and
non-string values always pass through unchanged. -/
theorem c7_prepare_arguments (cwd tool_name wd : String)
    (arguments : List (String × PyVal)) :
    (get_tool_path_strategy tool_name = "flexible" →
      prepare_arguments_for_tool cwd tool_name arguments wd = arguments) ∧
    (∀ (i : Nat) (k : String) (v : PyVal), arguments.get? i = some (k, v) →
      ((k ∉ file_param_names ∨ ∀ s, v ≠ PyVal.str s) →
        (prepare_arguments_for_tool cwd tool_name arguments wd).get? i
          = some (k, v)) ∧
      (∀ s, v = PyVal.str s → k ∈ file_param_names →
        (get_tool_path_strategy tool_name = "absolute_required" →
          (prepare_arguments_for_tool cwd tool_name arguments wd).get? i
            = some (k, PyVal.str
                (if pyIsAbs s then s else pyAbspath cwd (pyJoin wd s)))) ∧
        (get_tool_path_strategy tool_name = "relative_preferred" →
          (prepare_arguments_for_tool cwd tool_name arguments wd).get? i
            = some (k, PyVal.str
                (if pyIsAbs s then pyRelpath cwd s wd else s))))) := by
  constructor
  · intro h
    unfold prepare_arguments_for_tool
    rw [h]
    simp
  · intro i k v hget
    rcases strategy_cases tool_name with hs | hs | hs
    · have hprep : prepare_arguments_for_tool cwd tool_name arguments wd
          = convert_relative_to_absolute_paths cwd arguments wd := by
        unfold prepare_arguments_for_tool
        rw [hs]
        simp
      refine ⟨?_, ?_⟩
      · intro hskip
        rw [hprep]
        unfold convert_relative_to_absolute_paths
        rw [List.get?_map, hget]
        rcases hskip with hk | hv
        · cases v <;> simp [hk]
        · cases v with
          | str s => exact absurd rfl (hv s)
          | int n => simp
          | bool b => simp
          | null => simp
          | list l => simp
          | dict entries => simp
      · intro s hv hk
        subst hv
        refine ⟨?_, ?_⟩
        · intro _
          rw [hprep]
          unfold convert_relative_to_absolute_paths
          rw [List.get?_map, hget]
          by_cases hab : pyIsAbs s <;> simp [hk, hab]
        · intro hrel
          rw [hs] at hrel
          exact absurd hrel (by decide)
    · have hprep : prepare_arguments_for_tool cwd tool_name arguments wd
          = arguments.map (fun kv =>
              match kv with
              | (key, .str v) =>
                if key ∈ file_param_names then
                  if pyIsAbs v then (key, .str (pyRelpath cwd v wd))
                  else (key, .str v)
                else (key, .str v)
              | other => other) := by
        unfold prepare_arguments_for_tool
        rw [hs]
        simp
      refine ⟨?_, ?_⟩
      · intro hskip
        rw [hprep, List.get?_map, hget]
        rcases hskip with hk | hv
        · cases v <;> simp [hk]
        · cases v with
          | str s => exact absurd rfl (hv s)
          | int n => simp
          | bool b => simp
          | null => simp
          | list l => simp
          | dict entries => simp
      · intro s hv hk
        subst hv
        refine ⟨?_, ?_⟩
        · intro habs
          rw [hs] at habs
          exact absurd habs (by decide)
        · intro _
          rw [hprep, List.get?_map, hget]
          by_cases hab : pyIsAbs s <;> simp [hk, hab]
    · have hprep : prepare_arguments_for_tool cwd tool_name arguments wd
          = arguments := by
        unfold prepare_arguments_for_tool
        rw [hs]
        simp
      refine ⟨?_, ?_⟩
      · intro _
        rw [hprep]
        exact hget
      · intro s hv hk
        refine ⟨?_, ?_⟩
        · intro habs
          rw [hs] at habs
          exact absurd habs (by decide)
        · intro hrel
          rw [hs] at hrel
          exact absurd hrel (by decide)

/-- C7 witness: the spec's example - a relative spreadsheet path is
joined with the working directory. -/
theorem c7_prepare_arguments_witness :
    (prepare_arguments_for_tool "/cwd" "excel_read_sheet"
        [("fileAbsolutePath", PyVal.str "a.xlsx")] "/work").get? 0
      = some ("fileAbsolutePath", PyVal.str "/work/a.xlsx") := by
  have h := (((c7_prepare_arguments "/cwd" "excel_read_sheet" "/work"
    [("fileAbsolutePath", PyVal.str "a.xlsx")]).2 0 "fileAbsolutePath"
    (PyVal.str "a.xlsx") rfl).2 "a.xlsx" rfl (by decide)).1 rfl
  rw [h]
  rfl

/-! ## C8: environment-variable substitution -/

theorem substDictEntries_eq_map (env : OsEnv) (l : List (String × PyVal)) :
    substDictEntries env l = l.map (fun p => (p.1, substitute_env_vars env p.2)) := by
  induction l with
  | nil => rfl
  | cons h t ih => obtain ⟨k, v⟩ := h; simp [substDictEntries, ih]

theorem substListItems_eq_map (env : OsEnv) (l : List PyVal) :
    substListItems env l = l.map (substitute_env_vars env) := by
  induction l with
  | nil => rfl
  | cons h t ih => simp [substListItems, ih]

theorem substChars_id_of_no_match (env : OsEnv) : ∀ cs : List Char,
    (hasPlaceholderFrom .plain cs = false → substChars env .plain cs = cs) ∧
    (hasPlaceholderFrom .dollar cs = false →
      substChars env .dollar cs = '$' :: cs) ∧
    (∀ buf, hasPlaceholderFrom (.inside buf) cs = false →
      substChars env (.inside buf) cs = '$' :: '{' :: (buf.reverse ++ cs)) := by
  intro cs
  induction cs with
  | nil =>
    refine ⟨fun _ => rfl, fun _ => rfl, fun buf _ => ?_⟩
    simp [substChars]
  | cons c rest ih =>
    obtain ⟨ih1, ih2, ih3⟩ := ih
    refine ⟨?_, ?_, ?_⟩
    · intro h
      by_cases hc : c = '$'
      · subst hc
        simp [hasPlaceholderFrom] at h
        simp [substChars]
        exact ih2 h
      · simp only [hasPlaceholderFrom, if_neg hc] at h
        simp only [substChars, if_neg hc]
        rw [ih1 h]
    · intro h
      by_cases hc1 : c = '{'
      · subst hc1
        simp [hasPlaceholderFrom] at h
        simp [substChars]
        simpa using ih3 [] h
      · by_cases hc2 : c = '$'
        · subst hc2
          simp [hasPlaceholderFrom, hc1] at h
          simp [substChars, hc1]
          exact ih2 h
        · simp only [hasPlaceholderFrom, if_neg hc1, if_neg hc2] at h
          simp only [substChars, if_neg hc1, if_neg hc2]
          rw [ih1 h]
    · intro buf h
      by_cases hc : c = '}'
      · subst hc
        by_cases hb : buf.isEmpty
        · have hbuf : buf = [] := by
            cases buf with
            | nil => rfl
            | cons a l => exact absurd hb (by simp)
          subst hbuf
          simp [hasPlaceholderFrom] at h
          simp [substChars]
          exact ih1 h
        · simp [hasPlaceholderFrom, hb] at h
      · simp only [hasPlaceholderFrom, if_neg hc] at h
        simp only [substChars, if_neg hc]
        rw [ih3 (c :: buf) h]
        simp

theorem no_dollar_no_match : ∀ cs : List Char, '$' ∉ cs →
    hasPlaceholderFrom .plain cs = false := by
  intro cs
  induction cs with
  | nil => intro _; rfl
  | cons c rest ih =>
    intro h
    have hc : c ≠ '$' := fun he => h (by rw [he]; exact List.mem_cons_self _ _)
    have hrest : '$' ∉ rest := fun hm => h (List.mem_cons_of_mem _ hm)
    simp only [hasPlaceholderFrom, if_neg hc]
    exact ih hrest

theorem substChars_inside_closes (env : OsEnv) :
    ∀ (content : List Char) (buf tail : List Char),
      content.all (fun c => c ≠ '}') = true →
      (buf ≠ [] ∨ content ≠ []) →
      substChars env (.inside buf) (content ++ '}' :: tail)
        = (replace_env_var env (buf.reverse ++ content)).render.data
            ++ substChars env .plain tail := by
  intro content
  induction content with
  | nil =>
    intro buf tail _ hne
    have hb : buf ≠ [] := by
      rcases hne with h | h
      · exact h
      · exact absurd rfl h
    have hbe : buf.isEmpty = false := by
      cases buf with
      | nil => exact absurd rfl hb
      | cons a l => rfl
    simp [substChars, hbe]
  | cons c content' ih =>
    intro buf tail hall _
    have hc : c ≠ '}' := by
      simp only [List.all_cons, Bool.and_eq_true, decide_eq_true_eq] at hall
      exact hall.1
    have hall' : content'.all (fun c => c ≠ '}') = true := by
      simp only [List.all_cons, Bool.and_eq_true] at hall
      exact hall.2
    simp only [List.cons_append, substChars, if_neg hc, List.append_eq]
    rw [ih (c :: buf) tail hall' (Or.inl (by simp))]
    simp

theorem hasPlaceholderFrom_inside_closes :
    ∀ (content : List Char) (buf tail : List Char),
      content.all (fun c => c ≠ '}') = true →
      (buf ≠ [] ∨ content ≠ []) →
      hasPlaceholderFrom (.inside buf) (content ++ '}' :: tail) = true := by
  intro content
  induction content with
  | nil =>
    intro buf tail _ hne
    have hb : buf ≠ [] := by
      rcases hne with h | h
      · exact h
      · exact absurd rfl h
    have hbe : buf.isEmpty = false := by
      cases buf with
      | nil => exact absurd rfl hb
      | cons a l => rfl
    simp [hasPlaceholderFrom, hbe]
  | cons c content' ih =>
    intro buf tail hall _
    have hc : c ≠ '}' := by
      simp only [List.all_cons, Bool.and_eq_true, decide_eq_true_eq] at hall
      exact hall.1
    have hall' : content'.all (fun c => c ≠ '}') = true := by
      simp only [List.all_cons, Bool.and_eq_true] at hall
      exact hall.2
    simp only [List.cons_append, hasPlaceholderFrom, if_neg hc, List.append_eq]
    exact ih (c :: buf) tail hall' (Or.inl (by simp))

theorem fullmatch_none_of_no_match (cs : List Char)
    (h : hasPlaceholderFrom .plain cs = false) :
    fullmatchPlaceholder cs = none := by
  match cs with
  | [] => rfl
  | [c] => rfl
  | c1 :: c2 :: rest =>
    by_cases h12 : c1 = '$' ∧ c2 = '{'
    · obtain ⟨e1, e2⟩ := h12
      subst e1; subst e2
      simp only [hasPlaceholderFrom] at h
      simp only [if_true, Char.isValue, reduceIte] at h
      have hcond : ¬ ((rest.getLast? = some '}' && !rest.dropLast.isEmpty &&
          rest.dropLast.all (fun c => c ≠ '}')) = true) := by
        intro hc
        simp only [Bool.and_eq_true, decide_eq_true_eq, Bool.not_eq_eq_eq_not,
          Bool.not_true, List.isEmpty_eq_false] at hc
        obtain ⟨⟨hlast, hne⟩, hall⟩ := hc
        have hrest : rest.dropLast ++ ['}'] = rest :=
          List.dropLast_append_getLast? '}' (by rw [hlast]; rfl)
        have htrue := hasPlaceholderFrom_inside_closes rest.dropLast [] []
          (by simpa using hall) (Or.inr hne)
        rw [show rest.dropLast ++ '}' :: ([] : List Char)
              = rest.dropLast ++ ['}'] from rfl, hrest] at htrue
        rw [htrue] at h
        exact absurd h (by simp)
      have hred : fullmatchPlaceholder ('$' :: '{' :: rest)
          = if (rest.getLast? = some '}' && !rest.dropLast.isEmpty &&
                rest.dropLast.all (fun c => c ≠ '}')) = true then
              some rest.dropLast
            else none := by
        simp [fullmatchPlaceholder]
      rw [hred, if_neg hcond]
    · unfold fullmatchPlaceholder
      simp [h12]

theorem substChars_prefix_walk (env : OsEnv) :
    ∀ (pre rest : List Char), '$' ∉ pre →
      substChars env .plain (pre ++ rest) = pre ++ substChars env .plain rest := by
  intro pre
  induction pre with
  | nil => intro rest _; rfl
  | cons c pre' ih =>
    intro rest h
    have hc : c ≠ '$' := fun he => h (by rw [he]; exact List.mem_cons_self _ _)
    have hpre : '$' ∉ pre' := fun hm => h (List.mem_cons_of_mem _ hm)
    simp only [List.cons_append, substChars, if_neg hc, List.append_eq]
    rw [ih rest hpre]

theorem dropLast_append_cons {α : Type} :
    ∀ (l1 : List α) (a : α) (l2 : List α), l2 ≠ [] →
      (l1 ++ a :: l2).dropLast = l1 ++ a :: l2.dropLast := by
  intro l1
  induction l1 with
  | nil =>
    intro a l2 h
    cases l2 with
    | nil => exact absurd rfl h
    | cons b t => simp [List.dropLast_cons₂]
  | cons x l1' ih =>
    intro a l2 h
    have h2 : l1' ++ a :: l2 ≠ [] := by simp
    cases he : l1' ++ a :: l2 with
    | nil => exact absurd he h2
    | cons y t =>
      simp only [List.cons_append, he, List.dropLast_cons₂]
      rw [← he, ih a l2 h]

/-- The environment of the C8 counterexample: X is set to "007". -/
def env007 : OsEnv :=
  ⟨fun n => if n = "X" then some "007" else none, fun _ => false⟩

/-- C8 (counterexample): a placeholder embedded in a longer string is NOT
substituted textually - the resolved value is type-coerced first and then
rendered with str(), so with X=007 the string a$\x7bX\x7db becomes "a7b"
(int coercion drops the leading zeros), not "a007b". -/
theorem c8_counterexample :
    substitute_env_vars env007 (.str "a$\x7bX\x7db") = .str "a7b" ∧
      ("a7b" : String) ≠ "a" ++ "007" ++ "b" := by
  exact ⟨rfl, by decide⟩

/-- C8 (amended): substitute_env_vars rewrites only string values
containing a placeholder; a whole-placeholder string gets the type-coerced
resolved value (all-digit strings become integers, case-insensitive
true/false become booleans, anything else stays a string); an embedded
placeholder is substituted with the str() rendering of that coerced value
(identical to the raw value except for digit strings with leading zeros,
canonicalised, and true/false variants, rendered True/False); strings
without a placeholder and non-string scalars are returned unchanged, and
dicts/lists are rewritten entrywise. -/
theorem c8_substitute_env (env : OsEnv) :
    (∀ n : Int, substitute_env_vars env (.int n) = .int n) ∧
    (∀ b : Bool, substitute_env_vars env (.bool b) = .bool b) ∧
    (substitute_env_vars env .null = .null) ∧
    (∀ s : String, hasPlaceholderFrom .plain s.data = false →
      substitute_env_vars env (.str s) = .str s) ∧
    (∀ nm : List Char, nm ≠ [] → nm.all (fun c => c ≠ '}') = true →
      substitute_env_vars env (.str ⟨'$' :: '{' :: (nm ++ ['}'])⟩)
        = (replace_env_var env nm).toPyVal) ∧
    (∀ (nm : List Char) (v : String), splitColonDash nm = none →
      env.getenv (pyStrip ⟨nm⟩) = some v →
      ((pyIsDigit v = true → replace_env_var env nm = .int (pyInt v)) ∧
       (pyIsDigit v = false → pyLower v = "true" →
         replace_env_var env nm = .bool true) ∧
       (pyIsDigit v = false → pyLower v = "false" →
         replace_env_var env nm = .bool false) ∧
       (pyIsDigit v = false → pyLower v ≠ "true" → pyLower v ≠ "false" →
         replace_env_var env nm = .str v))) ∧
    (∀ pre nm suf : List Char, '$' ∉ pre → '$' ∉ suf →
      nm ≠ [] → nm.all (fun c => c ≠ '}') = true → (pre ≠ [] ∨ suf ≠ []) →
      substitute_env_vars env (.str ⟨pre ++ '$' :: '{' :: (nm ++ '}' :: suf)⟩)
        = .str ⟨pre ++ ((replace_env_var env nm).render.data ++ suf)⟩) ∧
    (∀ entries, substitute_env_vars env (.dict entries)
        = .dict (entries.map (fun p => (p.1, substitute_env_vars env p.2)))) ∧
    (∀ items, substitute_env_vars env (.list items)
        = .list (items.map (substitute_env_vars env))) := by
  refine ⟨fun _ => rfl, fun _ => rfl, rfl, ?_, ?_, ?_, ?_, ?_, ?_⟩
  · intro s h
    have hfm := fullmatch_none_of_no_match s.data h
    simp only [substitute_env_vars, hfm]
    rw [(substChars_id_of_no_match env s.data).1 h]
  · intro nm hne hall
    have h3 : nm.isEmpty = false := by
      cases nm with
      | nil => exact absurd rfl hne
      | cons a l => rfl
    have hfm : fullmatchPlaceholder ('$' :: '{' :: (nm ++ ['}'])) = some nm := by
      have hred : fullmatchPlaceholder ('$' :: '{' :: (nm ++ ['}']))
          = if ((nm ++ ['}']).getLast? = some '}' &&
                !(nm ++ ['}']).dropLast.isEmpty &&
                (nm ++ ['}']).dropLast.all (fun c => c ≠ '}')) = true then
              some (nm ++ ['}']).dropLast
            else none := by
        simp [fullmatchPlaceholder]
      rw [hred, List.dropLast_concat, List.getLast?_concat, if_pos]
      simp [h3]
      intro x hx
      simpa using List.all_eq_true.mp hall x hx
    simp only [substitute_env_vars]
    rw [hfm]
  · intro nm v hsplit hv
    have hval : (match splitColonDash nm with
        | some (varName, defaultValue) =>
          (env.getenv (pyStrip ⟨varName⟩)).getD (pyStrip ⟨defaultValue⟩)
        | none => (env.getenv (pyStrip ⟨nm⟩)).getD "") = v := by
      rw [hsplit]
      simp [hv]
    refine ⟨?_, ?_, ?_, ?_⟩
    · intro hd
      unfold replace_env_var
      rw [hval, if_pos hd]
    · intro hd ht
      unfold replace_env_var
      rw [hval, if_neg (by simp [hd]), if_pos ht]
    · intro hd ht
      unfold replace_env_var
      rw [hval, if_neg (by simp [hd]), if_neg (by simp [ht]), if_pos ht]
    · intro hd ht hf
      unfold replace_env_var
      rw [hval, if_neg (by simp [hd]), if_neg (by simpa using ht),
        if_neg (by simpa using hf)]
  · intro pre nm suf hpd hsd hne hall hps
    have hfm : fullmatchPlaceholder (pre ++ '$' :: '{' :: (nm ++ '}' :: suf))
        = none := by
      cases pre with
      | cons c pre' =>
        have hc : c ≠ '$' := fun he => hpd (by rw [he]; exact List.mem_cons_self _ _)
        cases he : pre' ++ '$' :: '{' :: (nm ++ '}' :: suf) with
        | nil => exact absurd he (by simp)
        | cons c2 rest2 =>
          rw [List.cons_append, he]
          have hred2 : fullmatchPlaceholder (c :: c2 :: rest2)
              = if c = '$' ∧ c2 = '{' then
                  (if (rest2.getLast? = some '}' && !rest2.dropLast.isEmpty &&
                      rest2.dropLast.all (fun x => x ≠ '}')) = true then
                    some rest2.dropLast
                  else none)
                else none := by
            simp [fullmatchPlaceholder]
          rw [hred2, if_neg]
          intro hx
          exact hc hx.1
      | nil =>
        have hsuf : suf ≠ [] := by
          rcases hps with h | h
          · exact absurd rfl h
          · exact h
        have hmem : '}' ∈ (nm ++ '}' :: suf).dropLast := by
          rw [dropLast_append_cons nm '}' suf hsuf]
          exact List.mem_append_right _ (List.mem_cons_self _ _)
        have hred : fullmatchPlaceholder ('$' :: '{' :: (nm ++ '}' :: suf))
            = if ((nm ++ '}' :: suf).getLast? = some '}' &&
                  !(nm ++ '}' :: suf).dropLast.isEmpty &&
                  (nm ++ '}' :: suf).dropLast.all (fun c => c ≠ '}')) = true then
                some (nm ++ '}' :: suf).dropLast
              else none := by
          simp [fullmatchPlaceholder]
        rw [List.nil_append, hred, if_neg]
        intro hc
        simp only [Bool.and_eq_true] at hc
        have := List.all_eq_true.mp hc.2 '}' hmem
        simp at this
    simp only [substitute_env_vars, hfm]
    rw [substChars_prefix_walk env pre _ hpd]
    have hstep : substChars env .plain ('$' :: '{' :: (nm ++ '}' :: suf))
        = (replace_env_var env nm).render.data ++ substChars env .plain suf := by
      have h1 : substChars env .plain ('$' :: '{' :: (nm ++ '}' :: suf))
          = substChars env (.inside []) (nm ++ '}' :: suf) := by
        simp [substChars]
      rw [h1]
      simpa using substChars_inside_closes env nm [] suf hall (Or.inr hne)
    rw [hstep, (substChars_id_of_no_match env suf).1 (no_dollar_no_match suf hsd)]
  · intro entries
    simp only [substitute_env_vars]
    rw [substDictEntries_eq_map]
  · intro items
    simp only [substitute_env_vars]
    rw [substListItems_eq_map]

/-- C8 witness: the amended theorem applied at concrete inputs - a
whole-string placeholder is type-coerced, a plain string is unchanged. -/
theorem c8_substitute_env_witness :
    substitute_env_vars env007 (.str "$\x7bX\x7d") = PyVal.int 7 ∧
      substitute_env_vars env007 (.str "plain-text") = .str "plain-text" := by
  constructor
  · exact (c8_substitute_env env007).2.2.2.2.1 ['X'] (by decide) (by decide)
  · exact (c8_substitute_env env007).2.2.2.1 "plain-text" (by decide)

/-! ## C9: normalize idempotence -/

/-- An environment with nothing set and no existing paths. -/
def env0 : OsEnv := ⟨fun _ => none, fun _ => false⟩

/-- A small well-formed raw configuration. -/
def cfgC9 : RawConfigDict := ⟨some "d", some "m", some "i", some [], some []⟩

/-- C9 (counterexample): normalize(normalize(cfg)) does not equal
normalize(cfg) - it does not return at all: normalize returns a typed
AggregatorConfig, and handing that back to normalize_config_dict hits
`config_dict.get` on a dataclass, raising AttributeError. -/
theorem c9_counterexample :
    normalize_config_dyn env0 (.typedConfig (normalize_config_dict env0 cfgC9))
      ≠ .ok (normalize_config_dict env0 cfgC9) := by
  simp [normalize_config_dyn]

theorem filterMap_typed (env : OsEnv) (l : List ServerConfig) :
    (l.map RawServerEntry.typed).filterMap (normalizeServerEntry env) = l := by
  induction l with
  | nil => rfl
  | cons h t ih => simp [normalizeServerEntry, ih]

/-- Re-wrapping a normalized configuration as a raw dict whose
source_servers are the already-typed records - the shape the repo's own
idempotence test (test_normalize_already_normalized_config) feeds back. -/
def configToRawDict (c : AggregatorConfig) : RawConfigDict :=
  ⟨some c.domain, some c.model, some c.instruction,
   some (c.source_servers.map RawServerEntry.typed), some c.tool_selection⟩

/-- C9 (amended): normalize is stable under re-normalization of its own
output re-wrapped as a raw dict (the literal composition
normalize(normalize(cfg)) instead raises, see the counterexample):
re-normalizing returns equal content, already-typed provider records are
passed through untouched, entries that are neither typed records nor maps
are silently skipped, and missing fields of a map entry are filled with
the defaults (name "unknown", args = [], enabled = true, priority = 1,
tool_filter = none). -/
theorem c9_normalize (env : OsEnv) (d : RawConfigDict) :
    normalize_config_dict env (configToRawDict (normalize_config_dict env d))
      = normalize_config_dict env d ∧
    (∀ sc : ServerConfig, RawServerEntry.typed sc ∈ d.source_servers.getD [] →
      sc ∈ (normalize_config_dict env d).source_servers) ∧
    normalizeServerEntry env .invalid = none ∧
    normalizeServerEntry env
        (.rmap ⟨none, none, none, none, none, none, none, none⟩)
      = some ⟨"unknown", "", [], "", none, 1, true, some ""⟩ := by
  refine ⟨?_, ?_, rfl, ?_⟩
  · have h1 : ∀ c : AggregatorConfig,
        normalize_config_dict env (configToRawDict c) = c := by
      intro c
      obtain ⟨dom, mdl, ins, srv, ts⟩ := c
      unfold normalize_config_dict configToRawDict
      simp only [Option.getD_some]
      rw [filterMap_typed]
    exact h1 _
  · intro sc hm
    unfold normalize_config_dict
    exact List.mem_filterMap.mpr ⟨.typed sc, hm, rfl⟩
  · rfl

/-- A raw configuration with one typed record and one invalid entry. -/
def rawC9 : RawConfigDict :=
  ⟨some "dom", none, none,
   some [RawServerEntry.typed ⟨"s1", "cmd", [], "/p", none, 2, true, none⟩,
         RawServerEntry.invalid], none⟩

/-- C9 witness: the amended theorem at a concrete configuration. -/
theorem c9_normalize_witness :
    normalize_config_dict env0 (configToRawDict (normalize_config_dict env0 rawC9))
      = normalize_config_dict env0 rawC9 ∧
    (⟨"s1", "cmd", [], "/p", none, 2, true, none⟩ : ServerConfig)
      ∈ (normalize_config_dict env0 rawC9).source_servers := by
  refine ⟨(c9_normalize env0 rawC9).1, (c9_normalize env0 rawC9).2.1 _ ?_⟩
  exact List.mem_cons_self _ _

/-! ## C10: discovery failures are never cached -/

/-- C10: when the discovery attempt fails, _discover_server_tools returns
the empty map and the engine state (TTL cache included) is exactly what it
was - no entry is added, overwritten or removed - so a later call retries
the connection; conversely the cache changes only on a successful
list-tools round trip, and then precisely by inserting the fetched map
under the provider's key. -/
theorem c10_failures_not_cached (w : MCPWorld) (now : Nat)
    (eng : DiscoveryEngine) (c : ServerConfig) :
    (∀ e, w.listTools c.name = .error e →
      (discover_server_tools w now eng c).2 = eng ∧
      ((∀ ct tools, dlookup (cache_key c) eng.cache = some (ct, tools) →
          eng.cache_duration ≤ now - ct) →
        (discover_server_tools w now eng c).1 = [])) ∧
    ((discover_server_tools w now eng c).2 ≠ eng →
      ∃ tl, w.listTools c.name = .ok tl ∧
        (discover_server_tools w now eng c).2.cache
          = dinsert (cache_key c) (now,
              tl.foldl (fun acc t => dinsert t.name t acc) []) eng.cache) := by
  refine ⟨?_, ?_⟩
  · intro e he
    unfold discover_server_tools
    cases hl : dlookup (cache_key c) eng.cache with
    | none =>
      simp [he]
    | some p =>
      obtain ⟨ct, tools⟩ := p
      by_cases hf : now - ct < eng.cache_duration
      · refine ⟨?_, ?_⟩
        · simp [if_pos hf]
        · intro hmiss
          have := hmiss ct tools rfl
          exfalso
          omega
      · simp [if_neg hf, he]
  · intro hne
    cases hw : w.listTools c.name with
    | error e =>
      exfalso
      apply hne
      unfold discover_server_tools
      cases hl : dlookup (cache_key c) eng.cache with
      | none => simp [hw]
      | some p =>
        obtain ⟨ct, tools⟩ := p
        by_cases hf : now - ct < eng.cache_duration
        · simp [if_pos hf]
        · simp [if_neg hf, hw]
    | ok tl =>
      refine ⟨tl, rfl, ?_⟩
      unfold discover_server_tools at hne ⊢
      cases hl : dlookup (cache_key c) eng.cache with
      | none => simp [hw]
      | some p =>
        obtain ⟨ct, tools⟩ := p
        rw [hl] at hne
        by_cases hf : now - ct < eng.cache_duration
        · simp [if_pos hf] at hne
        · simp [if_neg hf, hw]

/-- A world in which every provider connection fails. -/
def wFail : MCPWorld := ⟨fun _ => .error "connection refused"⟩

/-- The discovery engine at process start: default TTL, empty cache. -/
def eng0 : DiscoveryEngine := ⟨300, []⟩

/-- A concrete available provider. -/
def cfgP : ServerConfig := ⟨"provider_p", "cmd", [], "/srv", none, 1, true, none⟩

/-- C10 witness: the theorem applied to a concrete failing provider with
an empty cache. -/
theorem c10_failures_not_cached_witness :
    (discover_server_tools wFail 0 eng0 cfgP).2 = eng0 ∧
      (discover_server_tools wFail 0 eng0 cfgP).1 = [] := by
  have h := (c10_failures_not_cached wFail 0 eng0 cfgP).1 "connection refused" rfl
  refine ⟨h.1, h.2 ?_⟩
  intro ct tools hct
  simp [eng0, dlookup] at hct

/-! ## C2: discover_all result shape and failure absorption -/

/-- What one fresh (uncached) discovery produces: the name-keyed dict of
the server's tools on success, the empty dict on failure (the fetch body
of _discover_server_tools). -/
def fetchDict (w : MCPWorld) (c : ServerConfig) : List (String × AdkTool) :=
  match w.listTools c.name with
  | .ok tools_list => tools_list.foldl (fun acc t => dinsert t.name t acc) []
  | .error _ => []

theorem mem_dinsert {V : Type} {k0 : String} {v0 : V} {k : String} {v : V}
    {l : List (String × V)} (h : (k0, v0) ∈ dinsert k v l) :
    (k0 = k ∧ v0 = v) ∨ (k0, v0) ∈ l := by
  induction l with
  | nil =>
    simp [dinsert] at h
    exact Or.inl ⟨h.1, h.2⟩
  | cons hd t ih =>
    obtain ⟨k1, v1⟩ := hd
    by_cases he : k1 = k
    · subst he
      simp only [dinsert, if_pos rfl] at h
      rcases List.mem_cons.mp h with h1 | h1
      · exact Or.inl ⟨congrArg Prod.fst h1, congrArg Prod.snd h1⟩
      · exact Or.inr (List.mem_cons_of_mem _ h1)
    · simp only [dinsert, if_neg he] at h
      rcases List.mem_cons.mp h with h1 | h1
      · exact Or.inr (by rw [h1]; exact List.mem_cons_self _ _)
      · rcases ih h1 with h2 | h2
        · exact Or.inl h2
        · exact Or.inr (List.mem_cons_of_mem _ h2)

theorem mem_foldl_dinsert_tools :
    ∀ (tl : List AdkTool) (acc : List (String × AdkTool)) (tn : String)
      (t : AdkTool),
      (tn, t) ∈ tl.foldl (fun acc t => dinsert t.name t acc) acc →
      (t ∈ tl ∧ t.name = tn) ∨ (tn, t) ∈ acc := by
  intro tl
  induction tl with
  | nil => intro acc tn t h; exact Or.inr h
  | cons hd tl' ih =>
    intro acc tn t h
    rcases ih (dinsert hd.name hd acc) tn t h with h1 | h1
    · exact Or.inl ⟨List.mem_cons_of_mem _ h1.1, h1.2⟩
    · rcases mem_dinsert h1 with ⟨he1, he2⟩ | h2
      · subst he2
        exact Or.inl ⟨List.mem_cons_self _ _, he1.symm⟩
      · exact Or.inr h2

theorem mem_fetchDict {w : MCPWorld} {c : ServerConfig} {tn : String}
    {t : AdkTool} (h : (tn, t) ∈ fetchDict w c) :
    ∃ tl, w.listTools c.name = .ok tl ∧ t ∈ tl ∧ t.name = tn := by
  unfold fetchDict at h
  cases hw : w.listTools c.name with
  | ok tl =>
    rw [hw] at h
    rcases mem_foldl_dinsert_tools tl [] tn t h with h1 | h1
    · exact ⟨tl, rfl, h1.1, h1.2⟩
    · simp at h1
  | error e =>
    rw [hw] at h
    simp at h

theorem dlookup_mem {V : Type} :
    ∀ (l : List (String × V)) (k : String) (v : V),
      dlookup k l = some v → (k, v) ∈ l := by
  intro l
  induction l with
  | nil => intro k v h; simp [dlookup] at h
  | cons hd t ih =>
    intro k v h
    obtain ⟨k0, v0⟩ := hd
    by_cases he : k0 = k
    · subst he
      simp only [dlookup, if_pos rfl] at h
      rw [← Option.some_inj.mp h]
      exact List.mem_cons_self _ _
    · simp only [dlookup, if_neg he] at h
      exact List.mem_cons_of_mem _ (ih k v h)

theorem discover_fresh (w : MCPWorld) (now : Nat) (eng : DiscoveryEngine)
    (c : ServerConfig) (h : dlookup (cache_key c) eng.cache = none) :
    (discover_server_tools w now eng c).1 = fetchDict w c ∧
    (∀ k, k ≠ cache_key c →
      dlookup k (discover_server_tools w now eng c).2.cache
        = dlookup k eng.cache) := by
  unfold discover_server_tools fetchDict
  rw [h]
  cases hw : w.listTools c.name with
  | ok tl =>
    refine ⟨rfl, ?_⟩
    intro k hk
    show dlookup k (dinsert (cache_key c) _ eng.cache) = dlookup k eng.cache
    rw [dlookup_dinsert]
    exact if_neg (fun he => hk he.symm)
  | error e => exact ⟨rfl, fun k _ => rfl⟩

theorem run_tasks_fresh (w : MCPWorld) (now : Nat) :
    ∀ (configs : List ServerConfig) (eng : DiscoveryEngine),
      (∀ c ∈ configs, dlookup (cache_key c) eng.cache = none) →
      (configs.map cache_key).Nodup →
      (run_discovery_tasks w now eng configs).1 = configs.map (fetchDict w) ∧
      (∀ k, (∀ c ∈ configs, k ≠ cache_key c) →
        dlookup k (run_discovery_tasks w now eng configs).2.cache
          = dlookup k eng.cache) := by
  intro configs
  induction configs with
  | nil => intro eng _ _; exact ⟨rfl, fun k _ => rfl⟩
  | cons c rest ih =>
    intro eng hfresh hnodup
    have hc := hfresh c (List.mem_cons_self _ _)
    have hd := discover_fresh w now eng c hc
    have hkeys := (List.nodup_cons.mp hnodup).1
    have hnodup' := (List.nodup_cons.mp hnodup).2
    have hfresh' : ∀ c' ∈ rest,
        dlookup (cache_key c') (discover_server_tools w now eng c).2.cache
          = none := by
      intro c' hm
      have hne : cache_key c' ≠ cache_key c := by
        intro he
        exact hkeys (by rw [← he]; exact List.mem_map_of_mem _ hm)
      rw [hd.2 _ hne]
      exact hfresh c' (List.mem_cons_of_mem _ hm)
    have ihr := ih (discover_server_tools w now eng c).2 hfresh' hnodup'
    constructor
    · show ((discover_server_tools w now eng c).1 ::
          (run_discovery_tasks w now (discover_server_tools w now eng c).2
            rest).1) = _
      rw [hd.1, ihr.1]
      rfl
    · intro k hk
      show dlookup k (run_discovery_tasks w now
          (discover_server_tools w now eng c).2 rest).2.cache = _
      rw [ihr.2 k (fun c' hm => hk c' (List.mem_cons_of_mem _ hm)),
        hd.2 k (hk c (List.mem_cons_self _ _))]

theorem mem_foldl_dinsert_entries :
    ∀ (r : List (String × AdkTool)) (acc : List (String × DiscEntry))
      (nm : String) (pr : Int) (tn : String) (e : DiscEntry),
      (tn, e) ∈ r.foldl (fun a (p : String × AdkTool) =>
          dinsert p.1 ⟨p.2, nm, pr⟩ a) acc →
      (∃ p ∈ r, p.1 = tn ∧ e = ⟨p.2, nm, pr⟩) ∨ (tn, e) ∈ acc := by
  intro r
  induction r with
  | nil => intro acc nm pr tn e h; exact Or.inr h
  | cons hd r' ih =>
    intro acc nm pr tn e h
    rcases ih _ nm pr tn e h with h1 | h1
    · obtain ⟨p, hp, hp1, hp2⟩ := h1
      exact Or.inl ⟨p, List.mem_cons_of_mem _ hp, hp1, hp2⟩
    · rcases mem_dinsert h1 with ⟨he1, he2⟩ | h2
      · exact Or.inl ⟨hd, List.mem_cons_self _ _, he1.symm, he2⟩
      · exact Or.inr h2

theorem merge_sound (w : MCPWorld) (configs : List ServerConfig) :
    ∀ (results : List (List (String × AdkTool))) (i : Nat)
      (acc : List (String × DiscEntry)) (tn : String) (e : DiscEntry),
      (∀ j r, results.get? j = some r →
        ∃ c, configs.get? (i + j) = some c ∧ r = fetchDict w c) →
      (tn, e) ∈ merge_discovery_results configs i results acc →
      (∃ c ∈ configs, e.source = c.name ∧ e.priority = c.priority ∧
        (tn, e.tool) ∈ fetchDict w c) ∨
      (tn, e) ∈ acc := by
  intro results
  induction results with
  | nil => intro i acc tn e _ h; exact Or.inr h
  | cons r rest ih =>
    intro i acc tn e halign h
    obtain ⟨c, hcg, hcr⟩ := halign 0 r rfl
    rw [Nat.add_zero] at hcg
    have halign' : ∀ j r', rest.get? j = some r' →
        ∃ c', configs.get? (i + 1 + j) = some c' ∧ r' = fetchDict w c' := by
      intro j r' hj
      have := halign (j + 1) r' (by simpa using hj)
      rwa [show i + (j + 1) = i + 1 + j by omega] at this
    unfold merge_discovery_results at h
    split at h
    · rename_i heq
      rw [hcg] at heq
      exact absurd heq (by simp)
    · rename_i server_config heq
      rw [hcg] at heq
      injection heq with hsc
      subst hsc
      by_cases hemp : r.isEmpty
      · rw [if_pos hemp] at h
        exact ih (i + 1) acc tn e halign' h
      · rw [if_neg hemp] at h
        rcases ih (i + 1) _ tn e halign' h with h1 | h1
        · exact Or.inl h1
        · rcases mem_foldl_dinsert_entries r acc c.name c.priority tn e h1
            with h2 | h2
          · obtain ⟨p, hp, hp1, hp2⟩ := h2
            refine Or.inl ⟨c, List.get?_mem hcg, ?_, ?_, ?_⟩
            · rw [hp2]
            · rw [hp2]
            · rw [hp2, ← hp1, ← hcr]
              exact hp
          · exact Or.inr h2

theorem resolve_conflicts_mem :
    ∀ (l : List (String × DiscEntry)) (acc : List (String × DiscEntry))
      (tn : String) (e : DiscEntry),
      dlookup tn (l.foldl (fun resolved (p : String × DiscEntry) =>
        match dlookup p.1 resolved with
        | some current =>
          if p.2.priority > current.priority then dinsert p.1 p.2 resolved
          else resolved
        | none => dinsert p.1 p.2 resolved) acc) = some e →
      (tn, e) ∈ l ∨ dlookup tn acc = some e := by
  intro l
  induction l with
  | nil => intro acc tn e h; exact Or.inr h
  | cons hd t ih =>
    intro acc tn e h
    rcases ih _ tn e h with h1 | h1
    · exact Or.inl (List.mem_cons_of_mem _ h1)
    · have hstep : ∀ acc', acc' = dinsert hd.1 hd.2 acc ∨ acc' = acc →
          dlookup tn acc' = some e → (tn, e) ∈ hd :: t ∨ dlookup tn acc = some e := by
        intro acc' hor hl
        rcases hor with he | he
        · rw [he, dlookup_dinsert] at hl
          by_cases heq : hd.1 = tn
          · rw [if_pos heq] at hl
            refine Or.inl ?_
            have : (tn, e) = hd := by
              obtain ⟨h1', h2'⟩ := hd
              simp only at heq hl
              rw [← heq, ← Option.some_inj.mp hl]
            rw [this]
            exact List.mem_cons_self _ _
          · rw [if_neg heq] at hl
            exact Or.inr hl
        · rw [he] at hl
          exact Or.inr hl
      refine hstep _ ?_ h1
      cases hdl : dlookup hd.1 acc with
      | some current =>
        by_cases hp : hd.2.priority > current.priority
        · simp [hdl, hp]
        · simp [hdl, hp]
      | none => simp [hdl]

/-- C2 (amended): discover_all never raises - every per-provider failure
is absorbed - but its result is keyed by TOOL name (with
tool/source/priority entries), not by provider name: given available
providers with distinct cache keys and names and a fresh cache, every
entry of the result is sourced from a provider whose listing succeeded
and contained that tool; providers whose listing failed contribute no
entries; and when every provider fails the result is empty. -/
theorem c2_discover_all (w : MCPWorld) (env : OsEnv) (now : Nat)
    (eng : DiscoveryEngine) (configs : List ServerConfig)
    (hav : ∀ c ∈ configs, c.is_available env = true)
    (hcache : eng.cache = [])
    (hkeys : (configs.map cache_key).Nodup)
    (hnames : (configs.map ServerConfig.name).Nodup) :
    (∀ tn e, dlookup tn (discover_all_tools w env now eng configs).1 = some e →
      ∃ c ∈ configs, e.source = c.name ∧ e.priority = c.priority ∧
        ∃ tl, w.listTools c.name = .ok tl ∧ e.tool ∈ tl ∧ e.tool.name = tn) ∧
    (∀ c ∈ configs, ∀ err, w.listTools c.name = .error err →
      ∀ tn e, dlookup tn (discover_all_tools w env now eng configs).1 = some e →
        e.source ≠ c.name) ∧
    ((∀ c ∈ configs, ∃ err, w.listTools c.name = .error err) →
      (discover_all_tools w env now eng configs).1 = []) := by
  have hfilter : configs.filter (fun c => c.is_available env) = configs :=
    List.filter_eq_self.mpr (fun c hm => by rw [hav c hm])
  have halign : ∀ j r, (configs.map (fetchDict w)).get? j = some r →
      ∃ c, configs.get? (0 + j) = some c ∧ r = fetchDict w c := by
    intro j r hj
    rw [List.get?_map] at hj
    cases hc : configs.get? j with
    | none => rw [hc] at hj; simp at hj
    | some c =>
      rw [hc] at hj
      exact ⟨c, by simpa using hc, (Option.some_inj.mp hj).symm⟩
  have hsound : ∀ tn e,
      dlookup tn (discover_all_tools w env now eng configs).1 = some e →
      ∃ c ∈ configs, e.source = c.name ∧ e.priority = c.priority ∧
        (tn, e.tool) ∈ fetchDict w c := by
    intro tn e h
    unfold discover_all_tools at h
    rw [hfilter] at h
    by_cases hne : configs.isEmpty
    · rw [if_pos hne] at h
      simp [dlookup] at h
    · rw [if_neg hne] at h
      have hfresh : ∀ c ∈ configs, dlookup (cache_key c) eng.cache = none := by
        intro c _
        rw [hcache]
        rfl
      have hrun := run_tasks_fresh w now configs eng hfresh hkeys
      simp only [] at h
      rw [hrun.1] at h
      unfold resolve_conflicts at h
      rcases resolve_conflicts_mem _ [] tn e h with h1 | h1
      · rcases merge_sound w configs (configs.map (fetchDict w)) 0 [] tn e
          halign h1 with h2 | h2
        · exact h2
        · simp at h2
      · simp [dlookup] at h1
  refine ⟨?_, ?_, ?_⟩
  · intro tn e h
    obtain ⟨c, hm, hsrc, hpr, hmem⟩ := hsound tn e h
    obtain ⟨tl, hok, htl, hname⟩ := mem_fetchDict hmem
    exact ⟨c, hm, hsrc, hpr, tl, hok, htl, hname⟩
  · intro c hm err herr tn e h hsrc
    obtain ⟨c', hm', hsrc', _, hmem⟩ := hsound tn e h
    obtain ⟨tl, hok, _, _⟩ := mem_fetchDict hmem
    have hcc : c' = c :=
      List.inj_on_of_nodup_map hnames hm' hm (by rw [← hsrc', hsrc])
    rw [hcc, herr] at hok
    exact absurd hok (by simp)
  · intro hfail
    unfold discover_all_tools
    rw [hfilter]
    by_cases hne : configs.isEmpty
    · rw [if_pos hne]
    · rw [if_neg hne]
      have hfresh : ∀ c ∈ configs, dlookup (cache_key c) eng.cache = none := by
        intro c _
        rw [hcache]
        rfl
      have hrun := run_tasks_fresh w now configs eng hfresh hkeys
      show resolve_conflicts (merge_discovery_results configs 0
          (run_discovery_tasks w now eng configs).1 []) = []
      rw [hrun.1]
      have hallnil : ∀ r ∈ configs.map (fetchDict w), r = [] := by
        intro r hr
        obtain ⟨c, hc, hce⟩ := List.mem_map.mp hr
        obtain ⟨err, herr⟩ := hfail c hc
        rw [← hce]
        unfold fetchDict
        rw [herr]
      have hmerge : ∀ (results : List (List (String × AdkTool))) (i : Nat)
          (acc : List (String × DiscEntry)), (∀ r ∈ results, r = []) →
          merge_discovery_results configs i results acc = acc := by
        intro results
        induction results with
        | nil => intro i acc _; rfl
        | cons r rest ih =>
          intro i acc hr
          have hr0 : r = [] := hr r (List.mem_cons_self _ _)
          subst hr0
          unfold merge_discovery_results
          cases configs.get? i with
          | none => exact ih (i + 1) acc (fun r' hr' => hr r' (List.mem_cons_of_mem _ hr'))
          | some c =>
            exact ih (i + 1) acc (fun r' hr' => hr r' (List.mem_cons_of_mem _ hr'))
      rw [hmerge _ 0 [] hallnil]
      rfl

/-- An environment in which every path exists. -/
def envAll : OsEnv := ⟨fun _ => none, fun _ => true⟩

/-- The single tool offered by the counterexample provider. -/
def toolT : AdkTool := ⟨"tool_t", "a tool", fun _ => .ok .null⟩

/-- A world where exactly provider_p answers, with one tool tool_t. -/
def wP : MCPWorld :=
  ⟨fun n => if n = "provider_p" then .ok [toolT] else .error "down"⟩

/-- C2 (counterexample): for the single available provider provider_p
that succeeds with one tool tool_t, the result of discover_all is keyed
by the tool name, not by the provider name - there is no entry under
provider_p, so the result is not a map provider-name to
(tools, provider-config). -/
theorem c2_counterexample :
    ((discover_all_tools wP envAll 0 eng0 [cfgP]).1.map Prod.fst = ["tool_t"]) ∧
      "provider_p" ∉ (discover_all_tools wP envAll 0 eng0 [cfgP]).1.map Prod.fst := by
  constructor
  · rfl
  · decide

/-- C2 witness: the amended theorem applied to one failing provider - all
hypotheses discharged concretely, result empty. -/
theorem c2_discover_all_witness :
    (discover_all_tools wFail envAll 0 eng0 [cfgP]).1 = [] := by
  refine (c2_discover_all wFail envAll 0 eng0 [cfgP] ?_ rfl ?_ ?_).2.2 ?_
  · intro c hc
    rw [List.mem_singleton.mp hc]
    rfl
  · decide
  · decide
  · intro c hc
    exact ⟨"connection refused", rfl⟩

/-! ## C6: call_tool routing and its error condition -/

/-- A provider is available, its (freshly) discovered tool set contains
the requested name, and invoking that tool succeeds. -/
def offers_and_succeeds (w : MCPWorld) (env : OsEnv) (c : ServerConfig)
    (tool_name : String) (args : List (String × PyVal)) : Prop :=
  c.is_available env = true ∧
  ∃ t, dlookup tool_name (fetchDict w c) = some t ∧ ∃ r, t.run args = .ok r

/-- The tool of the C6 counterexample: offered, but its execution fails. -/
def toolBoom : AdkTool := ⟨"t", "always fails", fun _ => .error "boom"⟩

/-- A world where provider_p lists toolBoom. -/
def wBoom : MCPWorld :=
  ⟨fun n => if n = "provider_p" then .ok [toolBoom] else .error "down"⟩

/-- The composer configuration with the single provider cfgP. -/
def cfgT : AggregatorConfig := ⟨"", "", "", [cfgP], []⟩

/-- C6 (counterexample): an available provider's discovered tool set
contains "t", yet call_tool raises the not-found error, because the
tool's execution fails and the exception is swallowed - so "raises if and
only if no available provider offers the name" is false as stated. -/
theorem c6_counterexample :
    (call_tool wBoom envAll 0 eng0 cfgT "t" []).1
        = .error (tool_not_found_message "t") ∧
      cfgP ∈ cfgT.source_servers ∧
      cfgP.is_available envAll = true ∧
      (dlookup "t" (fetchDict wBoom cfgP)).isSome = true := by
  exact ⟨rfl, List.mem_cons_self _ _, rfl, rfl⟩

theorem call_tool_servers_spec (w : MCPWorld) (env : OsEnv) (now : Nat) :
    ∀ (configs : List ServerConfig) (eng : DiscoveryEngine)
      (tool_name : String) (args : List (String × PyVal)),
      (∀ c ∈ configs, dlookup (cache_key c) eng.cache = none) →
      (configs.map cache_key).Nodup →
      (∀ m, (call_tool_servers w env now eng configs tool_name args).1
          = .error m → m = tool_not_found_message tool_name) ∧
      ((∃ r, (call_tool_servers w env now eng configs tool_name args).1
          = .ok r) ↔
        ∃ c ∈ configs, offers_and_succeeds w env c tool_name args) ∧
      (∀ r, (call_tool_servers w env now eng configs tool_name args).1
          = .ok r →
        ∃ i c, configs.get? i = some c ∧
          offers_and_succeeds w env c tool_name args ∧
          (∃ t, dlookup tool_name (fetchDict w c) = some t ∧
            t.run args = .ok r) ∧
          (∀ j c', j < i → configs.get? j = some c' →
            ¬ offers_and_succeeds w env c' tool_name args)) := by
  intro configs
  induction configs with
  | nil =>
    intro eng tool_name args _ _
    refine ⟨?_, ?_, ?_⟩
    · intro m hm
      exact (Option.some_inj.mp (congrArg (fun x => match x with
        | Except.error m => some m
        | _ => none) hm.symm)).symm ▸ rfl
    · constructor
      · intro ⟨r, hr⟩
        exact absurd hr (by simp [call_tool_servers])
      · intro ⟨c, hc, _⟩
        simp at hc
    · intro r hr
      exact absurd hr (by simp [call_tool_servers])
  | cons c rest ih =>
    intro eng tool_name args hfresh hkeys
    have hkeyhd := (List.nodup_cons.mp hkeys).1
    have hkeys' := (List.nodup_cons.mp hkeys).2
    by_cases hav : c.is_available env = true
    · have hd := discover_fresh w now eng c (hfresh c (List.mem_cons_self _ _))
      have hfresh' : ∀ c' ∈ rest,
          dlookup (cache_key c') (discover_server_tools w now eng c).2.cache
            = none := by
        intro c' hm
        have hne : cache_key c' ≠ cache_key c := by
          intro he
          exact hkeyhd (by rw [← he]; exact List.mem_map_of_mem _ hm)
        rw [hd.2 _ hne]
        exact hfresh c' (List.mem_cons_of_mem _ hm)
      have hred : call_tool_servers w env now eng (c :: rest) tool_name args
          = match dlookup tool_name (fetchDict w c) with
            | some adk_tool =>
              match adk_tool.run args with
              | .ok result => (.ok result, (discover_server_tools w now eng c).2)
              | .error _ => call_tool_servers w env now
                  (discover_server_tools w now eng c).2 rest tool_name args
            | none => call_tool_servers w env now
                (discover_server_tools w now eng c).2 rest tool_name args := by
        simp only [call_tool_servers, hav, Bool.not_true, Bool.false_eq_true,
          if_false, hd.1]
      cases hl : dlookup tool_name (fetchDict w c) with
      | some t =>
        cases hrun : t.run args with
        | ok r0 =>
          rw [hred] at *
          refine ⟨?_, ?_, ?_⟩
          · intro m hm
            rw [hl] at hm
            simp only [hrun] at hm
            exact absurd hm (by simp)
          · constructor
            · intro _
              exact ⟨c, List.mem_cons_self _ _, hav, t, hl, r0, hrun⟩
            · intro _
              rw [hl]
              simp only [hrun]
              exact ⟨r0, rfl⟩
          · intro r hr
            rw [hl] at hr
            simp only [hrun] at hr
            have hr0 : r = r0 := by
              simpa using hr.symm
            refine ⟨0, c, rfl, ⟨hav, t, hl, r0, hrun⟩,
              ⟨t, hl, by rw [hr0]; exact hrun⟩, ?_⟩
            intro j c' hj _ _
            omega
        | error err =>
          have hnos : ¬ offers_and_succeeds w env c tool_name args := by
            intro ⟨_, t', ht', r', hr'⟩
            rw [hl] at ht'
            rw [Option.some_inj.mp ht'] at hrun
            rw [hrun] at hr'
            exact absurd hr' (by simp)
          have ihr := ih (discover_server_tools w now eng c).2 tool_name args
            hfresh' hkeys'
          have hval : call_tool_servers w env now eng (c :: rest) tool_name args
              = call_tool_servers w env now (discover_server_tools w now eng c).2
                  rest tool_name args := by
            rw [hred, hl]
            simp only [hrun]
          rw [hval]
          refine ⟨ihr.1, ?_, ?_⟩
          · rw [ihr.2.1]
            constructor
            · intro ⟨c', hc', ho⟩
              exact ⟨c', List.mem_cons_of_mem _ hc', ho⟩
            · intro ⟨c', hc', ho⟩
              rcases List.mem_cons.mp hc' with he | hm
              · exact absurd (he ▸ ho) hnos
              · exact ⟨c', hm, ho⟩
          · intro r hr
            obtain ⟨i, c', hgi, ho, hex, hmin⟩ := ihr.2.2 r hr
            refine ⟨i + 1, c', by simpa using hgi, ho, hex, ?_⟩
            intro j c'' hj hgj
            cases j with
            | zero =>
              intro hoc
              exact hnos ((Option.some_inj.mp hgj) ▸ hoc)
            | succ j' =>
              exact hmin j' c'' (by omega) (by simpa using hgj)
      | none =>
        have hnos : ¬ offers_and_succeeds w env c tool_name args := by
          intro ⟨_, t', ht', _⟩
          rw [hl] at ht'
          exact absurd ht' (by simp)
        have ihr := ih (discover_server_tools w now eng c).2 tool_name args
          hfresh' hkeys'
        have hval : call_tool_servers w env now eng (c :: rest) tool_name args
            = call_tool_servers w env now (discover_server_tools w now eng c).2
                rest tool_name args := by
          rw [hred, hl]
        rw [hval]
        refine ⟨ihr.1, ?_, ?_⟩
        · rw [ihr.2.1]
          constructor
          · intro ⟨c', hc', ho⟩
            exact ⟨c', List.mem_cons_of_mem _ hc', ho⟩
          · intro ⟨c', hc', ho⟩
            rcases List.mem_cons.mp hc' with he | hm
            · exact absurd (he ▸ ho) hnos
            · exact ⟨c', hm, ho⟩
        · intro r hr
          obtain ⟨i, c', hgi, ho, hex, hmin⟩ := ihr.2.2 r hr
          refine ⟨i + 1, c', by simpa using hgi, ho, hex, ?_⟩
          intro j c'' hj hgj
          cases j with
          | zero =>
            intro hoc
            exact hnos ((Option.some_inj.mp hgj) ▸ hoc)
          | succ j' =>
            exact hmin j' c'' (by omega) (by simpa using hgj)
    · have hnos : ¬ offers_and_succeeds w env c tool_name args := by
        intro ⟨ha, _⟩
        exact hav ha
      have hb : c.is_available env = false := by
        cases hb : c.is_available env with
        | true => exact absurd hb hav
        | false => rfl
      have hval : call_tool_servers w env now eng (c :: rest) tool_name args
          = call_tool_servers w env now eng rest tool_name args := by
        simp only [call_tool_servers, hb, Bool.not_false, if_true]
      have ihr := ih eng tool_name args
        (fun c' hm => hfresh c' (List.mem_cons_of_mem _ hm)) hkeys'
      rw [hval]
      refine ⟨ihr.1, ?_, ?_⟩
      · rw [ihr.2.1]
        constructor
        · intro ⟨c', hc', ho⟩
          exact ⟨c', List.mem_cons_of_mem _ hc', ho⟩
        · intro ⟨c', hc', ho⟩
          rcases List.mem_cons.mp hc' with he | hm
          · exact absurd (he ▸ ho) hnos
          · exact ⟨c', hm, ho⟩
      · intro r hr
        obtain ⟨i, c', hgi, ho, hex, hmin⟩ := ihr.2.2 r hr
        refine ⟨i + 1, c', by simpa using hgi, ho, hex, ?_⟩
        intro j c'' hj hgj
        cases j with
        | zero =>
          intro hoc
          exact hnos ((Option.some_inj.mp hgj) ▸ hoc)
        | succ j' =>
          exact hmin j' c'' (by omega) (by simpa using hgj)

/-- C6 (amended): call_tool returns the raw result of the first available
provider whose discovered tool set contains the name AND whose invocation
succeeds; it raises if and only if there is no such provider (in
particular it also raises when providers offer the name but every
invocation fails, since those exceptions are swallowed and the loop moves
on); the raised error is always the ValueError whose message embeds the
requested tool name. -/
theorem c6_call_tool (w : MCPWorld) (env : OsEnv) (now : Nat)
    (eng : DiscoveryEngine) (cfg : AggregatorConfig) (tool_name : String)
    (args : List (String × PyVal))
    (hcache : eng.cache = [])
    (hkeys : (cfg.source_servers.map cache_key).Nodup) :
    (∀ m, (call_tool w env now eng cfg tool_name args).1 = .error m →
      m = tool_not_found_message tool_name ∧
      m = ("Tool " ++ squote) ++ tool_name ++
          (squote ++ " not found in any configured MCP server")) ∧
    ((∃ r, (call_tool w env now eng cfg tool_name args).1 = .ok r) ↔
      ∃ c ∈ cfg.source_servers, offers_and_succeeds w env c tool_name args) ∧
    (∀ r, (call_tool w env now eng cfg tool_name args).1 = .ok r →
      ∃ i c, cfg.source_servers.get? i = some c ∧
        offers_and_succeeds w env c tool_name args ∧
        (∃ t, dlookup tool_name (fetchDict w c) = some t ∧
          t.run args = .ok r) ∧
        (∀ j c', j < i → cfg.source_servers.get? j = some c' →
          ¬ offers_and_succeeds w env c' tool_name args)) := by
  have hs := call_tool_servers_spec w env now cfg.source_servers eng tool_name
    args (fun c _ => by rw [hcache]; rfl) hkeys
  refine ⟨?_, hs.2.1, hs.2.2⟩
  · intro m hm
    have h1 := hs.1 m hm
    refine ⟨h1, ?_⟩
    rw [h1]
    unfold tool_not_found_message
    simp [String.append_assoc]

/-- C6 witness: the amended theorem at a concrete configuration -
requesting a name no provider offers yields the ValueError whose message
contains the name. -/
theorem c6_call_tool_witness :
    (call_tool wP envAll 0 eng0 cfgT "does_not_exist" []).1
        = .error (tool_not_found_message "does_not_exist") ∧
      strContainsSub "does_not_exist"
        (tool_not_found_message "does_not_exist") = true := by
  have hs := c6_call_tool wP envAll 0 eng0 cfgT "does_not_exist" [] rfl
    (by decide)
  constructor
  · cases hcall : (call_tool wP envAll 0 eng0 cfgT "does_not_exist" []).1 with
    | error m => rw [(hs.1 m hcall).1]
    | ok r =>
      exfalso
      obtain ⟨c, hc, _, t, ht, _⟩ := hs.2.1.mp ⟨r, hcall⟩
      rw [List.mem_singleton.mp hc] at ht
      rw [show dlookup "does_not_exist" (fetchDict wP cfgP) = none from rfl]
        at ht
      exact absurd ht (by simp)
  · decide

/-! ## C1: get_all_tools on the A/B priority scenario -/

/-- Tool x as served by provider A. -/
def toolXA : AdkTool := ⟨"x", "Excel read tool", fun _ => .ok .null⟩

/-- Tool x as served by provider B. -/
def toolXB : AdkTool := ⟨"x", "Analytics read tool", fun _ => .ok .null⟩

/-- Tool y, served only by provider B. -/
def toolYB : AdkTool := ⟨"y", "extra tool", fun _ => .ok .null⟩

/-- The world of the spec's example: A lists (x), B lists (x, y). -/
def wAB : MCPWorld :=
  ⟨fun n =>
    if n = "A" then .ok [toolXA]
    else if n = "B" then .ok [toolXB, toolYB]
    else .error "down"⟩

/-- Provider A, priority 1. -/
def cfgA : ServerConfig := ⟨"A", "cmd", [], "/a", none, 1, true, none⟩

/-- Provider B, priority 2. -/
def cfgB : ServerConfig := ⟨"B", "cmd", [], "/b", none, 2, true, none⟩

/-- The composer configuration of the example. -/
def cfgAB : AggregatorConfig := ⟨"", "", "", [cfgA, cfgB], []⟩

/-- C1 (code bug): on the spec's own example - A(priority 1, tools x) and
B(priority 2, tools x, y), both available and answering - get_all_tools
does not yield x and y owned by B: it raises KeyError, because
discover_all_tools hands back a tool-keyed map whose entries have keys
tool/source/priority while the composer loop immediately reads the
config key of each entry.  The second conjunct shows the discovery layer
did produce x and y attributed to B (via its own unconditional last-wins
overwrite), so the composer's strict-priority fold - which matches the
claim - is never reached. -/
theorem c1_get_all_tools_keyerror :
    (get_all_tools wAB envAll 0 eng0 cfgAB).1 = .error "KeyError: config" ∧
      (discover_all_tools wAB envAll 0 eng0 [cfgA, cfgB]).1.map
          (fun p => (p.1, p.2.source, p.2.priority))
        = [("x", "B", 2), ("y", "B", 2)] := by
  exact ⟨rfl, rfl⟩

end Staffer
